import Mathlib

/-!
Verification development for the CxMGMTaC team/user reconciliation tool.

The definitions below are a shallow embedding of the two Python sources:

* `src/CxMGMTaC/CxMGMTaC.py` — the main tool (namespace `CxAC` below):
  the entity model (`Team`, `User`, `UserReference`, `Model`), the
  per-attribute update diff (`attr_equal`, `User.get_updates`), the
  reconciliation engine (`Model.apply_changes` and its phases) and the
  validator (`Model.build_maps`, `Model.validate`).
* `ptum.py` — the earlier per-team user management script (namespace
  `Ptum` below): its `Model.validate_user` cross-team consistency check.

Modelling conventions:

* Python attribute values are embedded as `PVal` (`None`, bool, str, int,
  or a container of strings).  Python truthiness is `truthy`.
* Python container attributes (role sets, IP allow-lists) are embedded as
  canonical (sorted, duplicate-free) lists of strings, matching the data
  model in which those attributes are unordered, deduplicated sets.
* Python dicts are embedded as association lists with insert-overwrites
  (`dInsert`, `dLookup`, `dKeys`); keys are unique by construction for
  dicts built only through `dInsert`, which mirrors real dicts.
* The remote Access Control service is an external collaborator; calls to
  it are recorded as trace elements (`Op`) rather than executed.  The id
  the service assigns to a newly created team (fetched back by full name
  in `add_teams`) is supplied by an oracle function `String → Option Nat`.
* Python exceptions are `Except String`.
-/

namespace CxAC

/-- Embedded Python attribute value: `None`, a bool, a str, an int, or a
container of strings (role set / IP allow-list) kept as a canonical list. -/
inductive PVal : Type where
  | pnone : PVal
  | pbool : Bool → PVal
  | pstr : String → PVal
  | pint : Int → PVal
  | pset : List String → PVal
  deriving DecidableEq

/-- Python truthiness of an embedded value: `None`, `False`, the empty
string, `0` and the empty container are falsy. -/
def truthy : PVal → Bool
  | PVal.pnone => false
  | PVal.pbool b => b
  | PVal.pstr s => !(s = "")
  | PVal.pint n => !(n = 0)
  | PVal.pset l => !(l = [])

/-- Declared Python type of an attribute (the `type` field of the
`Property` namedtuple): `bool`, `str`, `int` or `list`. -/
inductive PType : Type where
  | tbool : PType
  | tstr : PType
  | tint : PType
  | tlist : PType
  deriving DecidableEq

/-- Embedding of the module-level function `attr_equal(attr1, attr2,
attr_type)`: two falsy values of a non-bool type count as equal, otherwise
plain equality. -/
def attrEqual (a1 a2 : PVal) (t : PType) : Bool :=
  if t ≠ PType.tbool ∧ truthy a1 = false ∧ truthy a2 = false then true
  else decide (a1 = a2)

/-- Lexicographic strict order on character lists, by code point; this is
how Python compares strings (and how `sorted` orders them). -/
def lexLt : List Char → List Char → Bool
  | [], [] => false
  | [], _ :: _ => true
  | _ :: _, [] => false
  | a :: as, b :: bs => if a < b then true else if b < a then false else lexLt as bs

/-- Python `<` on strings. -/
def pyLt (a b : String) : Bool := lexLt a.data b.data

/-- Python `<=` on strings (total order complement of `pyLt`). -/
def pyLe (a b : String) : Bool := !(pyLt b a)

/-- One step of insertion sort with respect to `pyLe`. -/
def insertAsc (x : String) : List String → List String
  | [] => [x]
  | y :: ys => if pyLe x y then x :: y :: ys else y :: insertAsc x ys

/-- Embedding of Python `sorted` on a collection of strings (the inputs we
sort are sets, so stability is irrelevant). -/
def sortAsc (l : List String) : List String := l.foldr insertAsc []

section Dict

variable {K V : Type} [DecidableEq K]

/-- Python dict lookup: first entry with the given key (unique for dicts
built through `dInsert`). -/
def dLookup : List (K × V) → K → Option V
  | [], _ => none
  | kv :: d, k => if kv.1 = k then some kv.2 else dLookup d k

/-- Python dict assignment `d[k] = v`: overwrite in place if the key is
present, else append, preserving insertion order of keys. -/
def dInsert (d : List (K × V)) (k : K) (v : V) : List (K × V) :=
  if (dLookup d k).isSome then
    d.map (fun kv => if kv.1 = k then (k, v) else kv)
  else d ++ [(k, v)]

/-- Python `set(d.keys())`: the key set of a dict (deduplicated). -/
def dKeys (d : List (K × V)) : List K := (d.map Prod.fst).dedup

end Dict

instance {E A : Type} [DecidableEq E] [DecidableEq A] : DecidableEq (Except E A) :=
  fun a b =>
    match a, b with
    | Except.error e1, Except.error e2 =>
      if h : e1 = e2 then Decidable.isTrue (by rw [h])
      else Decidable.isFalse (fun hc => h (by injection hc))
    | Except.ok v1, Except.ok v2 =>
      if h : v1 = v2 then Decidable.isTrue (by rw [h])
      else Decidable.isFalse (fun hc => h (by injection hc))
    | Except.error _, Except.ok _ => Decidable.isFalse (fun hc => Except.noConfusion hc)
    | Except.ok _, Except.error _ => Decidable.isFalse (fun hc => Except.noConfusion hc)

/-- Split of a character list on a separator, with Python `str.split`
semantics (the empty list splits to one empty group). -/
def splitChars (sep : Char) : List Char → List (List Char)
  | [] => [[]]
  | c :: cs =>
    let r := splitChars sep cs
    if c = sep then [] :: r
    else
      match r with
      | [] => [[c]]
      | g :: gs => (c :: g) :: gs

/-- Join of character-list groups with `/` (Python `'/'.join`). -/
def joinSlash : List (List Char) → List Char
  | [] => []
  | [g] => g
  | g :: gs => g ++ '/' :: joinSlash gs

/-- Names of the declared `User.attrs` properties of `CxMGMTaC.User`. -/
inductive Attr : Type where
  | active : Attr
  | allowed_ip_list : Attr
  | authentication_provider_name : Attr
  | cell_phone_number : Attr
  | country : Attr
  | email : Attr
  | expiration_date : Attr
  | first_name : Attr
  | job_title : Attr
  | last_name : Attr
  | locale_id : Attr
  | other : Attr
  | phone_number : Attr
  | roles : Attr
  | username : Attr
  deriving DecidableEq

/-- Human-readable attribute name, as used in error messages. -/
def attrName : Attr → String
  | Attr.active => "active"
  | Attr.allowed_ip_list => "allowed_ip_list"
  | Attr.authentication_provider_name => "authentication_provider_name"
  | Attr.cell_phone_number => "cell_phone_number"
  | Attr.country => "country"
  | Attr.email => "email"
  | Attr.expiration_date => "expiration_date"
  | Attr.first_name => "first_name"
  | Attr.job_title => "job_title"
  | Attr.last_name => "last_name"
  | Attr.locale_id => "locale_id"
  | Attr.other => "other"
  | Attr.phone_number => "phone_number"
  | Attr.roles => "roles"
  | Attr.username => "username"

/-- Embedding of `CxMGMTaC.User`: one `PVal` per Python attribute, plus the
remotely assigned opaque `user_id`. -/
structure User : Type where
  username : PVal
  email : PVal
  first_name : PVal
  last_name : PVal
  authentication_provider_name : PVal
  locale_id : PVal
  roles : PVal
  active : PVal
  allowed_ip_list : PVal
  cell_phone_number : PVal
  country : PVal
  expiration_date : PVal
  job_title : PVal
  other : PVal
  phone_number : PVal
  user_id : PVal
  deriving DecidableEq

/-- Python `getattr(user, attr)` for the declared attributes. -/
def getAttr (u : User) : Attr → PVal
  | Attr.active => u.active
  | Attr.allowed_ip_list => u.allowed_ip_list
  | Attr.authentication_provider_name => u.authentication_provider_name
  | Attr.cell_phone_number => u.cell_phone_number
  | Attr.country => u.country
  | Attr.email => u.email
  | Attr.expiration_date => u.expiration_date
  | Attr.first_name => u.first_name
  | Attr.job_title => u.job_title
  | Attr.last_name => u.last_name
  | Attr.locale_id => u.locale_id
  | Attr.other => u.other
  | Attr.phone_number => u.phone_number
  | Attr.roles => u.roles
  | Attr.username => u.username

/-- The `User.attrs` table of `CxMGMTaC.py`: name, type and mandatory flag,
in the source order. -/
def userAttrs : List (Attr × PType × Bool) :=
  [(Attr.active, PType.tbool, true),
   (Attr.allowed_ip_list, PType.tlist, false),
   (Attr.authentication_provider_name, PType.tstr, true),
   (Attr.cell_phone_number, PType.tstr, false),
   (Attr.country, PType.tstr, false),
   (Attr.email, PType.tstr, true),
   (Attr.expiration_date, PType.tstr, false),
   (Attr.first_name, PType.tstr, true),
   (Attr.job_title, PType.tstr, false),
   (Attr.last_name, PType.tstr, true),
   (Attr.locale_id, PType.tint, true),
   (Attr.other, PType.tstr, false),
   (Attr.phone_number, PType.tstr, false),
   (Attr.roles, PType.tlist, false),
   (Attr.username, PType.tstr, true)]

/-- Canonical form of a Python `set` of strings: duplicate-free and sorted
ascending, so that structural equality of the embedding coincides with
Python set equality. -/
def canonSet (l : List String) : List String := sortAsc l.dedup

/-- Contained string list of a container value (`[]` for any other value). -/
def asList : PVal → List String
  | PVal.pset l => l
  | _ => []

/-- Embedding of the `User.__init__` constructor: a falsy `roles` or
`allowed_ip_list` argument becomes the empty set, a truthy one a set of its
elements (containers are kept in canonical set form). -/
def mkUser (username apn email first_name last_name locale_id roles active
    allowed_ip_list cell_phone_number country expiration_date job_title
    other phone_number user_id : PVal) : User :=
  { username := username
    email := email
    first_name := first_name
    last_name := last_name
    authentication_provider_name := apn
    locale_id := locale_id
    roles := if truthy roles then PVal.pset (canonSet (asList roles)) else PVal.pset []
    active := active
    allowed_ip_list :=
      if truthy allowed_ip_list then PVal.pset (canonSet (asList allowed_ip_list))
      else PVal.pset []
    cell_phone_number := cell_phone_number
    country := country
    expiration_date := expiration_date
    job_title := job_title
    other := other
    phone_number := phone_number
    user_id := user_id }

/-- Embedding of `CxMGMTaC.UserReference`: the identity-only handle, with
equality on the two fields. -/
structure UserRef : Type where
  username : PVal
  authentication_provider_name : PVal
  deriving DecidableEq

/-- The identity key of a user. -/
def keyOf (u : User) : UserRef :=
  { username := u.username
    authentication_provider_name := u.authentication_provider_name }

/-- Embedding of `CxMGMTaC.Team`: name, slash-delimited full name, the
membership list of user references, and the remotely assigned id. -/
structure Team : Type where
  name : String
  full_name : String
  users : List UserRef
  team_id : Option Nat
  deriving DecidableEq

/-- Embedding of `get_team_parent_name`: drop the last slash-separated
component and re-join (`'/'.join(full_name.split('/')[0:-1])`). -/
def getTeamParentName (full_name : String) : String :=
  String.mk (joinSlash (splitChars '/' full_name.data).dropLast)

/-- Embedding of `CxMGMTaC.Model` together with its three derived maps
(which the Python object carries as mutable fields). -/
structure ModelState : Type where
  teams : List Team
  users : List User
  team_map : List (String × Team)
  user_map : List (UserRef × User)
  user_team_ids_map : List (UserRef × Finset (Option Nat))
  deriving DecidableEq

/-- Embedding of `Model.update_user_team_ids_map`: rebuild, from scratch,
the map from a user key to the set of ids of the teams referencing it. -/
def rebuildUtim (teams : List Team) : List (UserRef × Finset (Option Nat)) :=
  teams.foldl
    (fun d team =>
      team.users.foldl
        (fun d ref => dInsert d ref (insert team.team_id ((dLookup d ref).getD ∅)))
        d)
    []

/-- Error records of `CxMGMTaC.py` (plain collected values, not
exceptions).  `missingLDAPUser` is included for completeness; the LDAP
fallback itself is an external collaborator and is not modelled. -/
inductive Err : Type where
  | duplicateTeam : String → Err
  | duplicateUser : UserRef → Err
  | invalidRole : PVal → String → Err
  | invalidAuthenticationProviderName : PVal → PVal → Err
  | noTeam : PVal → PVal → Err
  | missingUser : UserRef → Err
  | missingUserProperty : PVal → Attr → Err
  | missingLDAPUser : UserRef → Err
  deriving DecidableEq

/-- Keyed fold of a list into a dict: insert each element under its key. -/
def keyFold {α K V : Type} [DecidableEq K] (key : α → K) (val : α → V)
    (l : List α) (d0 : List (K × V)) : List (K × V) :=
  l.foldl (fun d x => dInsert d (key x) (val x)) d0

/-- Keyed fold of a list into a dict that also collects an error for every
element whose key is already present at its turn (the loop shape of
`Model.build_maps`). -/
def keyFoldErr {α K V E : Type} [DecidableEq K] (key : α → K) (val : α → V)
    (er : α → E) (l : List α) (d0 : List (K × V)) (es0 : List E) :
    List (K × V) × List E :=
  l.foldl
    (fun acc x =>
      (dInsert acc.1 (key x) (val x),
       acc.2 ++ (if (dLookup acc.1 (key x)).isSome then [er x] else [])))
    (d0, es0)

/-- Embedding of `Model.build_maps`: fold the teams into `team_map` and the
users into `user_map`, collecting a `DuplicateTeam` / `DuplicateUser` error
whenever a key is already present, then rebuild `user_team_ids_map`.  The
two maps are extended from their current contents, exactly as the Python
method extends the existing dict fields. -/
def buildMaps (m : ModelState) (errors : List Err) : ModelState × List Err :=
  let tstep := keyFoldErr (fun t => t.full_name) id
    (fun t => Err.duplicateTeam t.full_name) m.teams m.team_map errors
  let ustep := keyFoldErr keyOf id
    (fun u => Err.duplicateUser (keyOf u)) m.users m.user_map tstep.2
  ({ m with
      team_map := tstep.1
      user_map := ustep.1
      user_team_ids_map := rebuildUtim m.teams },
   ustep.2)

/-- A model as constructed by `Model.__init__` without `build_maps`: the
three derived maps start out empty. -/
def freshState (teams : List Team) (users : List User) : ModelState :=
  { teams := teams
    users := users
    team_map := []
    user_map := []
    user_team_ids_map := [] }

/-- A model whose maps have been built once from fresh (the state of a
model right after its first `build_maps`). -/
def builtState (teams : List Team) (users : List User) : ModelState :=
  (buildMaps (freshState teams users) []).1

/-- Embedding of `RoleManager.id_from_name` (and of
`AuthenticationProviderManager.id_from_name`): linear search of the
name/id table, raising `ValueError` on an unknown name.  The table is the
data fetched once per run from the remote service. -/
def idFromName (table : List (String × Nat)) (nm : String) : Except String Nat :=
  match table.find? (fun e => e.1 = nm) with
  | some e => Except.ok e.2
  | none => Except.error (nm ++ ": invalid name")

/-- Embedding of `RoleManager.valid_name` / the provider manager's
`valid_name`, applied to a raw attribute value: only a string present in
the table is valid (in particular `None` is invalid). -/
def validName (table : List (String × Nat)) (v : PVal) : Bool :=
  match v with
  | PVal.pstr s => (table.find? (fun e => e.1 = s)).isSome
  | _ => false

/-- Dict lookup raising a Python `KeyError` when the key is absent. -/
def lookupE {K V : Type} [DecidableEq K] (d : List (K × V)) (k : K) :
    Except String V :=
  match dLookup d k with
  | some v => Except.ok v
  | none => Except.error "KeyError"

/-- The update payload dictionary built by `User.get_updates`: the compared
attributes (in `User.attrs` order), plus `team_ids`, `role_ids` and (added
by `Model.update_users`) `user_id`. -/
structure Payload : Type where
  fields : List (Attr × PVal)
  team_ids : Finset (Option Nat)
  role_ids : List Nat
  user_id : PVal
  deriving DecidableEq

/-- The attributes compared by `User.get_updates` (all declared attributes
except the skipped `authentication_provider_name`, `roles`, `username`). -/
def comparedAttrs : List (Attr × PType × Bool) :=
  userAttrs.filter (fun e =>
    ¬ (e.1 = Attr.authentication_provider_name ∨ e.1 = Attr.roles ∨ e.1 = Attr.username))

/-- One step of the attribute loop of `User.get_updates`: the compared
attribute goes into the updates dictionary — the other user's value if
`attr_equal` says it changed (setting the found flag), the current user's
value otherwise. -/
def diffStep (self other : User) (acc : List (Attr × PVal) × Bool)
    (e : Attr × PType × Bool) : List (Attr × PVal) × Bool :=
  if attrEqual (getAttr self e.1) (getAttr other e.1) e.2.1 = false then
    (acc.1 ++ [(e.1, getAttr other e.1)], true)
  else (acc.1 ++ [(e.1, getAttr self e.1)], acc.2)

/-- The attribute loop of `User.get_updates` over the compared attributes,
starting from an empty dictionary and an unset found flag. -/
def diffFields (self other : User) : List (Attr × PVal) × Bool :=
  comparedAttrs.foldl (diffStep self other) ([], false)

/-- Role set of a user as a list (users built by `mkUser` always store a
container here). -/
def rolesList (u : User) : List String := asList u.roles

/-- Embedding of `User.get_updates`: fatal `ValueError` on differing
usernames or differing authentication provider names; otherwise the
per-attribute diff, the team-id set comparison and the role set comparison
(role names resolved to ids through the role table, which may itself raise
for an unknown role).  Returns `none` when nothing changed. -/
def getUpdates (self other : User) (old_team_ids new_team_ids : Finset (Option Nat))
    (role_table : List (String × Nat)) : Except String (Option Payload) :=
  if self.username ≠ other.username then
    Except.error "Cannot generate updates for different users"
  else if self.authentication_provider_name ≠ other.authentication_provider_name then
    Except.error "Cannot change authentication provider name"
  else
    let fs := diffFields self other
    let tstep : Finset (Option Nat) × Bool :=
      if old_team_ids ≠ new_team_ids then (new_team_ids, true) else (old_team_ids, fs.2)
    if self.roles ≠ other.roles then
      match (rolesList other).mapM (idFromName role_table) with
      | Except.error e => Except.error e
      | Except.ok ids =>
        Except.ok (some { fields := fs.1
                          team_ids := tstep.1
                          role_ids := ids
                          user_id := PVal.pnone })
    else
      match (rolesList self).mapM (idFromName role_table) with
      | Except.error e => Except.error e
      | Except.ok ids =>
        if tstep.2 then
          Except.ok (some { fields := fs.1
                            team_ids := tstep.1
                            role_ids := ids
                            user_id := PVal.pnone })
        else Except.ok none

/-- One remote directory mutation, as decided by the reconciliation engine.
Each element also records which entity the call is for (`full_name` for a
team, the identity key for a user), so that ordering claims can name the
calls. -/
inductive Op : Type where
  | createTeam : String → String → Option Nat → Op
  | deleteTeam : String → Option Nat → Op
  | createUser : UserRef → List Nat → Finset (Option Nat) → Op
  | deleteUser : UserRef → PVal → Op
  | updateUser : UserRef → Payload → Op
  deriving DecidableEq

/-- The loop body of `Model.add_teams`, over the ascending-sorted creation
set: look the team up in the new model's map, look its parent's id up in
the evolving working copy `team_map` (a Python `KeyError` if the parent is
in neither model), issue the creation call, read the assigned id back from
the service (`assign`), and store the team under its full name in the
working copy. -/
def addTeamsLoop (new_team_map : List (String × Team)) (assign : String → Option Nat) :
    List String → List (String × Team) → Except String (List Op × List (String × Team))
  | [], tm => Except.ok ([], tm)
  | full :: rest, tm =>
    match lookupE new_team_map full with
    | Except.error e => Except.error e
    | Except.ok team =>
      match lookupE tm (getTeamParentName full) with
      | Except.error e => Except.error e
      | Except.ok parent =>
        match addTeamsLoop new_team_map assign rest
            (dInsert tm team.full_name { team with team_id := assign team.full_name }) with
        | Except.error e => Except.error e
        | Except.ok step =>
          Except.ok (Op.createTeam full team.name parent.team_id :: step.1, step.2)

/-- Embedding of `Model.add_teams` (`cur` is `self`): the creation set is
the new model's full names minus the current ones, processed in ascending
lexical order over a working deep copy of the new model's `team_map`; the
new model then receives the updated map, the assigned ids (through the
aliased team objects) and a rebuilt `user_team_ids_map`. -/
def addTeams (cur new : ModelState) (assign : String → Option Nat) :
    Except String (List Op × ModelState) :=
  let cur_team_names := dKeys cur.team_map
  let new_team_names := dKeys new.team_map
  let teams_to_create := sortAsc (new_team_names.filter (fun n => ¬ n ∈ cur_team_names))
  match addTeamsLoop new.team_map assign teams_to_create new.team_map with
  | Except.error e => Except.error e
  | Except.ok step =>
    let teams2 := new.teams.map (fun t =>
      if t.full_name ∈ teams_to_create then { t with team_id := assign t.full_name } else t)
    Except.ok (step.1,
      { new with
          teams := teams2
          team_map := step.2
          user_team_ids_map := rebuildUtim teams2 })

/-- Embedding of `Model.delete_teams` (`cur` is `self`): the deletion set is
the current full names minus the new ones, processed in descending lexical
order, each call carrying the current team's id. -/
def deleteTeams (cur new : ModelState) : List Op :=
  let teams_to_delete :=
    sortAsc ((dKeys cur.team_map).filter (fun n => ¬ n ∈ dKeys new.team_map))
  teams_to_delete.reverse.map (fun full =>
    Op.deleteTeam full
      (match dLookup cur.team_map full with
       | some t => t.team_id
       | none => none))

/-- The loop of `Model.add_users`: one creation call per new user, carrying
the new model's team-id set for the user (a `KeyError` when the user
belongs to no team) and the provider and role ids resolved by name. -/
def addUsersLoop (new : ModelState) (role_table apn_table : List (String × Nat)) :
    List UserRef → Except String (List Op)
  | [] => Except.ok []
  | k :: rest =>
    match lookupE new.user_map k with
    | Except.error e => Except.error e
    | Except.ok user =>
      match lookupE new.user_team_ids_map k with
      | Except.error e => Except.error e
      | Except.ok tids =>
        match (match user.authentication_provider_name with
               | PVal.pstr s => idFromName apn_table s
               | _ => Except.error "invalid authentication provider name") with
        | Except.error e => Except.error e
        | Except.ok _ =>
          match (rolesList user).mapM (idFromName role_table) with
          | Except.error e => Except.error e
          | Except.ok rids =>
            match addUsersLoop new role_table apn_table rest with
            | Except.error e => Except.error e
            | Except.ok ops => Except.ok (Op.createUser k rids tids :: ops)

/-- Embedding of `Model.add_users` (`cur` is `self`): the creation set is
the new model's identities minus the current ones.  `UserReference` defines
no ordering, so the Python `sorted` over these keys is not meaningful; the
set is iterated in key order of the new map. -/
def addUsers (cur new : ModelState) (role_table apn_table : List (String × Nat)) :
    Except String (List Op) :=
  addUsersLoop new role_table apn_table
    ((dKeys new.user_map).filter (fun k => ¬ k ∈ dKeys cur.user_map))

/-- The loop of `Model.delete_users`: one deletion call per user, keyed by
the user's existing opaque id. -/
def deleteUsersLoop (cur : ModelState) : List UserRef → Except String (List Op)
  | [] => Except.ok []
  | k :: rest =>
    match lookupE cur.user_map k with
    | Except.error e => Except.error e
    | Except.ok user =>
      match deleteUsersLoop cur rest with
      | Except.error e => Except.error e
      | Except.ok ops => Except.ok (Op.deleteUser k user.user_id :: ops)

/-- Embedding of `Model.delete_users` (`cur` is `self`): the deletion set
is the current model's identities minus the new ones.  As in `addUsers`,
the keys are iterated in map order. -/
def deleteUsers (cur new : ModelState) : Except String (List Op) :=
  deleteUsersLoop cur
    ((dKeys cur.user_map).filter (fun k => ¬ k ∈ dKeys new.user_map))

/-- The per-user body of `Model.update_users`: look the user up in both
models together with both team-id sets, compute the diff with
`getUpdates`; a non-`None` result receives the current user's opaque id
and becomes one update call (`update_user` raises when that id is
falsy). -/
def updateStepRes (cur new : ModelState) (role_table : List (String × Nat))
    (k : UserRef) : Except String (Option Op) :=
  match lookupE cur.user_map k with
  | Except.error e => Except.error e
  | Except.ok old_user =>
    match lookupE cur.user_team_ids_map k with
    | Except.error e => Except.error e
    | Except.ok old_tids =>
      match lookupE new.user_map k with
      | Except.error e => Except.error e
      | Except.ok new_user =>
        match lookupE new.user_team_ids_map k with
        | Except.error e => Except.error e
        | Except.ok new_tids =>
          match getUpdates old_user new_user old_tids new_tids role_table with
          | Except.error e => Except.error e
          | Except.ok none => Except.ok none
          | Except.ok (some p) =>
            if truthy old_user.user_id then
              Except.ok (some (Op.updateUser k { p with user_id := old_user.user_id }))
            else Except.error "user_id missing from updates dictionary"

/-- The loop of `Model.update_users`: run the per-user body over the
update set, concatenating the emitted calls in iteration order. -/
def updateUsersLoop (cur new : ModelState) (role_table : List (String × Nat)) :
    List UserRef → Except String (List Op)
  | [] => Except.ok []
  | k :: rest =>
    match updateStepRes cur new role_table k with
    | Except.error e => Except.error e
    | Except.ok none => updateUsersLoop cur new role_table rest
    | Except.ok (some op) =>
      match updateUsersLoop cur new role_table rest with
      | Except.error e => Except.error e
      | Except.ok ops => Except.ok (op :: ops)

/-- Embedding of `Model.update_users` (`cur` is `self`): the update set is
the identities present in both models. -/
def updateUsers (cur new : ModelState) (role_table : List (String × Nat)) :
    Except String (List Op) :=
  updateUsersLoop cur new role_table
    ((dKeys new.user_map).filter (fun k => k ∈ dKeys cur.user_map))

/-- The last team of a list carrying the given full name (Python's
sequential assignments make the last one win). -/
def lastWithName (teams : List Team) (full : String) : Option Team :=
  (teams.filter (fun t => t.full_name = full)).getLast?

/-- Embedding of `Model.update_team_ids` (`self.update_team_ids(other)`):
every team of `self` whose full name is a key of `self.team_map` and occurs
in `other` receives the id of the (last) such team of `other`; the map
entries are updated through the same aliased objects, and
`user_team_ids_map` is rebuilt. -/
def updateTeamIds (self other : ModelState) : ModelState :=
  let teams2 := self.teams.map (fun t =>
    if (dLookup self.team_map t.full_name).isSome then
      match lastWithName other.teams t.full_name with
      | some o => { t with team_id := o.team_id }
      | none => t
    else t)
  { self with
      teams := teams2
      team_map := self.team_map.map (fun kv =>
        match lastWithName other.teams kv.1 with
        | some o => (kv.1, { kv.2 with team_id := o.team_id })
        | none => kv)
      user_team_ids_map := rebuildUtim teams2 }

/-- Embedding of `Model.apply_changes` (`cur` is `self`): carry the current
team ids over into the new model, then add teams, add users, update users,
delete users and delete teams, concatenating the issued calls in that
order.  A raised exception aborts the remaining sequence. -/
def applyChanges (cur new : ModelState) (role_table apn_table : List (String × Nat))
    (assign : String → Option Nat) : Except String (List Op) :=
  let new1 := updateTeamIds new cur
  match addTeams cur new1 assign with
  | Except.error e => Except.error e
  | Except.ok step =>
    match addUsers cur step.2 role_table apn_table with
    | Except.error e => Except.error e
    | Except.ok opsB =>
      match updateUsers cur step.2 role_table with
      | Except.error e => Except.error e
      | Except.ok opsC =>
        match deleteUsers cur step.2 with
        | Except.error e => Except.error e
        | Except.ok opsD =>
          Except.ok (step.1 ++ opsB ++ opsC ++ opsD ++ deleteTeams cur step.2)

/-- Embedding of `User.validate`: a `MissingUserProperty` for every
mandatory attribute that is `None` (in declaration order), then an
authentication provider name check, then one `InvalidRole` per unknown
role. -/
def userValidate (u : User) (apn_table role_table : List (String × Nat)) : List Err :=
  (userAttrs.filterMap (fun e =>
    if e.2.2 = true ∧ getAttr u e.1 = PVal.pnone then
      some (Err.missingUserProperty u.username e.1)
    else none))
  ++ (if validName apn_table u.authentication_provider_name then []
      else [Err.invalidAuthenticationProviderName u.username
              u.authentication_provider_name])
  ++ ((rolesList u).filterMap (fun r =>
      if validName role_table (PVal.pstr r) then none
      else some (Err.invalidRole u.username r)))

/-- Embedding of `Model.validate_users`: per-user validation plus a
`NoTeam` error for a user referenced by no team. -/
def validateUsers (m : ModelState) (apn_table role_table : List (String × Nat)) :
    List Err :=
  m.users.foldl
    (fun es u =>
      es ++ userValidate u apn_table role_table ++
        (if (dLookup m.user_team_ids_map (keyOf u)).isSome then []
         else [Err.noTeam u.username u.authentication_provider_name]))
    []

/-- Embedding of `Users.__contains__`: does some user match the reference's
provider name and username? -/
def usersContains (users : List User) (ref : UserRef) : Bool :=
  users.any (fun u =>
    u.authentication_provider_name = ref.authentication_provider_name ∧
      u.username = ref.username)

/-- Embedding of `Model.validate_teams` / `Model.validate_team` with the
directory-lookup fallback disabled (`retrieve_user_entries=False`): a
`MissingUser` error for every unresolvable user reference. -/
def validateTeams (m : ModelState) : List Err :=
  m.teams.foldl
    (fun es t =>
      es ++ t.users.filterMap (fun ref =>
        if usersContains m.users ref then none else some (Err.missingUser ref)))
    []

/-- Embedding of `Model.validate`: build the maps (collecting duplicate
errors into the same mutable state), then validate users, then teams.  The
model state is returned too, because `build_maps` mutates the model's map
fields. -/
def validateModel (m : ModelState) (apn_table role_table : List (String × Nat)) :
    ModelState × List Err :=
  let built := buildMaps m []
  (built.1, built.2 ++ validateUsers built.1 apn_table role_table ++ validateTeams built.1)

/-- The team-level defaults of a `Users` collection (`Users.attrs`):
`default_roles` is always a set on the object (empty when not given), the
other three are optional. -/
structure Defaults : Type where
  default_active : Option Bool
  default_authentication_provider_name : Option String
  default_locale_id : Option Int
  default_roles : List String
  deriving DecidableEq

/-- The Python `kwargs.get(f'default_{attr}')` of `User.to_dict`: the
default value supplied for an attribute (`None` for the attributes that
have no default). -/
def defaultFor (dflts : Defaults) : Attr → PVal
  | Attr.active =>
    match dflts.default_active with
    | some b => PVal.pbool b
    | none => PVal.pnone
  | Attr.authentication_provider_name =>
    match dflts.default_authentication_provider_name with
    | some s => PVal.pstr s
    | none => PVal.pnone
  | Attr.locale_id =>
    match dflts.default_locale_id with
    | some n => PVal.pint n
    | none => PVal.pnone
  | Attr.roles => PVal.pset dflts.default_roles
  | _ => PVal.pnone

/-- The attribute loop of `User.to_dict` over a given attribute table: a
non-`None` value is emitted when it differs from its default and is either
of bool type or truthy (`f(sorted(value))` is the identity on our canonical
containers); a `None` mandatory value without a default raises
`ValueError`. -/
def toDictAux (u : User) (dflts : Defaults) :
    List (Attr × PType × Bool) → Except String (List (Attr × PVal))
  | [] => Except.ok []
  | e :: rest =>
    let v := getAttr u e.1
    let dv := defaultFor dflts e.1
    if v ≠ PVal.pnone then
      if v ≠ dv ∧ (e.2.1 = PType.tbool ∨ truthy v = true) then
        (toDictAux u dflts rest).map (fun d => (e.1, v) :: d)
      else toDictAux u dflts rest
    else if dv = PVal.pnone ∧ e.2.2 = true then
      Except.error (attrName e.1 ++ " attribute is mandatory")
    else toDictAux u dflts rest

/-- Embedding of `User.to_dict` with team-level defaults as keyword
arguments (normalization: omit attributes equal to or supplied by the
defaults). -/
def toDict (u : User) (dflts : Defaults) : Except String (List (Attr × PVal)) :=
  toDictAux u dflts userAttrs

/-- One step of the default-filling loop of `Users.user_from_dict`: if the
actual attribute is absent from the user dictionary and the default is
present in the collection data, store the default under the actual key. -/
def fillStep (d : List (Attr × PVal)) (a : Attr) (present : Bool) (dflts : Defaults) :
    List (Attr × PVal) :=
  if (dLookup d a).isNone ∧ present then dInsert d a (defaultFor dflts a) else d

/-- The default-filling loop of `Users.user_from_dict`, over the four
hoistable attribute pairs in source order (`default_roles` is always
present on a `Users` object). -/
def denormFill (d : List (Attr × PVal)) (dflts : Defaults) : List (Attr × PVal) :=
  let d1 := fillStep d Attr.active dflts.default_active.isSome dflts
  let d2 := fillStep d1 Attr.authentication_provider_name
    dflts.default_authentication_provider_name.isSome dflts
  let d3 := fillStep d2 Attr.locale_id dflts.default_locale_id.isSome dflts
  fillStep d3 Attr.roles true dflts

/-- Embedding of `Users.user_from_dict` (denormalization): fill absent
hoistable attributes from the defaults, then call the `User` constructor —
a `TypeError` if the required `username` or `authentication_provider_name`
arguments are still absent; every other absent attribute defaults to
`None`. -/
def fromDict (d : List (Attr × PVal)) (dflts : Defaults) : Except String User :=
  let d2 := denormFill d dflts
  match dLookup d2 Attr.username, dLookup d2 Attr.authentication_provider_name with
  | some uv, some av =>
    let g := fun a => (dLookup d2 a).getD PVal.pnone
    Except.ok (mkUser uv av (g Attr.email) (g Attr.first_name) (g Attr.last_name)
      (g Attr.locale_id) (g Attr.roles) (g Attr.active) (g Attr.allowed_ip_list)
      (g Attr.cell_phone_number) (g Attr.country) (g Attr.expiration_date)
      (g Attr.job_title) (g Attr.other) (g Attr.phone_number) PVal.pnone)
  | _, _ => Except.error "TypeError: missing required constructor argument"

/-- Declared type of each attribute (the `f` column of `User.attrs`). -/
def typeOf : Attr → PType
  | Attr.active => PType.tbool
  | Attr.allowed_ip_list => PType.tlist
  | Attr.authentication_provider_name => PType.tstr
  | Attr.cell_phone_number => PType.tstr
  | Attr.country => PType.tstr
  | Attr.email => PType.tstr
  | Attr.expiration_date => PType.tstr
  | Attr.first_name => PType.tstr
  | Attr.job_title => PType.tstr
  | Attr.last_name => PType.tstr
  | Attr.locale_id => PType.tint
  | Attr.other => PType.tstr
  | Attr.phone_number => PType.tstr
  | Attr.roles => PType.tlist
  | Attr.username => PType.tstr

/-- The effective (resolved) value of an attribute: a `None` bool resolves
to the default; a falsy (null-or-empty) non-bool value resolves to the
default (the denormalization rule of the defaults normalizer). -/
def resolveAttr (v : PVal) (t : PType) (dv : PVal) : PVal :=
  if t = PType.tbool then (if v = PVal.pnone then dv else v)
  else if truthy v then v else dv

/-- The effective (resolved) value of a user attribute under team-level
defaults. -/
def effective (u : User) (dflts : Defaults) (a : Attr) : PVal :=
  resolveAttr (getAttr u a) (typeOf a) (defaultFor dflts a)

/-- Does a value fit a declared attribute type?  (Values are `None` or of
the declared type; containers are canonical.) -/
def fitsType (v : PVal) : PType → Bool
  | PType.tbool =>
    match v with
    | PVal.pnone => true
    | PVal.pbool _ => true
    | _ => false
  | PType.tstr =>
    match v with
    | PVal.pnone => true
    | PVal.pstr _ => true
    | _ => false
  | PType.tint =>
    match v with
    | PVal.pnone => true
    | PVal.pint _ => true
    | _ => false
  | PType.tlist =>
    match v with
    | PVal.pnone => true
    | PVal.pset l => decide (canonSet l = l)
    | _ => false

/-- A user is well typed when every declared attribute holds a value of
its declared type (as every user built by the Python constructors from
type-checked input does). -/
def wellTypedUser (u : User) : Bool :=
  userAttrs.all (fun e => fitsType (getAttr u e.1) e.2.1)

/-- Full names of the team creation calls of a trace, in order. -/
def createdFullNames (ops : List Op) : List String :=
  ops.filterMap (fun o =>
    match o with
    | Op.createTeam f _ _ => some f
    | _ => none)

/-- Full names of the team deletion calls of a trace, in order. -/
def deletedFullNames (ops : List Op) : List String :=
  ops.filterMap (fun o =>
    match o with
    | Op.deleteTeam f _ => some f
    | _ => none)

/-- Does the diff of `getUpdates` find any change: some compared attribute
changed, or the team-id sets differ, or the role sets differ? -/
def hasDiff (u1 u2 : User) (t1 t2 : Finset (Option Nat)) : Bool :=
  (diffFields u1 u2).2 || decide (t1 ≠ t2) || decide (u1.roles ≠ u2.roles)

/-- The payload `getUpdates` returns when it finds a change: every compared
attribute (new value if changed, current value otherwise), the team-id set
(new if changed), and the role ids (of the new roles if changed, of the
current roles otherwise); `user_id` is filled in later by
`Model.update_users`. -/
def fullPayload (u1 u2 : User) (t1 t2 : Finset (Option Nat))
    (ids1 ids2 : List Nat) : Payload :=
  { fields := (diffFields u1 u2).1
    team_ids := if t1 ≠ t2 then t2 else t1
    role_ids := if u1.roles ≠ u2.roles then ids2 else ids1
    user_id := PVal.pnone }

/-- Is an error a `DuplicateTeam` or `DuplicateUser` record? -/
def isDupErr : Err → Bool
  | Err.duplicateTeam _ => true
  | Err.duplicateUser _ => true
  | _ => false

/-- The condition under which `User.to_dict` emits an attribute of type `t`
holding value `v` against default `dv`. -/
def emitCond (v dv : PVal) (t : PType) : Bool :=
  decide (v ≠ PVal.pnone) && decide (v ≠ dv) &&
    (decide (t = PType.tbool) || truthy v)

/-- The stored (raw) value of an attribute of type `t` after `to_dict`
normalization against default `dv` followed by the `user_from_dict`
default-filling step (with `p` the presence of the attribute's hoisted
default): the emitted value when `to_dict` emitted one, else the default
when the attribute is hoistable with a present default, else absent. -/
def storedAfter (v dv : PVal) (t : PType) (p : Bool) : Option PVal :=
  if (if emitCond v dv t then some v else none).isNone ∧ p then some dv
  else if emitCond v dv t then some v else none

/-! Concrete example data used by the claim witnesses and
counterexamples. -/

/-- Example role table of the remote service. -/
def exRoleTable : List (String × Nat) := [("Admin", 1), ("Reviewer", 2)]

/-- Example authentication provider table of the remote service. -/
def exApnTable : List (String × Nat) := [("App", 10)]

/-- Example team `A` with no remote id yet. -/
def exTeamA : Team := { name := "A", full_name := "A", users := [], team_id := none }

/-- Example team `A/B` with no remote id yet. -/
def exTeamAB : Team := { name := "B", full_name := "A/B", users := [], team_id := none }

/-- Example team `A` as an existing team with remote id 1. -/
def exTeamA1 : Team := { name := "A", full_name := "A", users := [], team_id := some 1 }

/-- Example team `A/B/C` with no remote id yet. -/
def exTeamABC : Team :=
  { name := "C", full_name := "A/B/C", users := [], team_id := none }

/-- An empty current model. -/
def exCurEmpty : ModelState := builtState [] []

/-- Desired model containing exactly the teams `A` and `A/B`. -/
def exNewAAB : ModelState := builtState [exTeamA, exTeamAB] []

/-- Id-assignment oracle for the `A` and `A/B` creation scenario. -/
def exAssign : String → Option Nat :=
  fun s => if s = "A" then some 5 else if s = "A/B" then some 6 else none

/-- Current model containing only the existing team `A`. -/
def exCurA : ModelState := builtState [exTeamA1] []

/-- Desired model containing `A`, `A/B` and `A/B/C`. -/
def exNewABC : ModelState := builtState [exTeamA1, exTeamAB, exTeamABC] []

/-- Id-assignment oracle for the `A/B`, `A/B/C` creation scenario. -/
def exAssign2 : String → Option Nat :=
  fun s => if s = "A/B" then some 7 else if s = "A/B/C" then some 8 else none

/-- The trace and final state of the successful creation scenario. -/
def exCreateRes : List Op × ModelState :=
  (addTeams exCurA exNewABC exAssign2).toOption.getD ([], freshState [] [])

/-- Current model containing the existing teams `A` (id 1) and `A/B`
(id 2). -/
def exCurDel : ModelState :=
  builtState [exTeamA1, { name := "B", full_name := "A/B", users := [], team_id := some 2 }] []

/-- An empty desired model. -/
def exNewEmpty : ModelState := builtState [] []

/-- Reference to the example user. -/
def exRef : UserRef :=
  { username := PVal.pstr "u", authentication_provider_name := PVal.pstr "App" }

/-- Example user parameterized by email, cell phone number and opaque id;
all other attributes are fixed. -/
def exUser (email cell uid : PVal) : User :=
  mkUser (PVal.pstr "u") (PVal.pstr "App") email (PVal.pstr "F") (PVal.pstr "L")
    (PVal.pint 1) (PVal.pset ["Admin"]) (PVal.pbool true) (PVal.pset [])
    cell PVal.pnone PVal.pnone PVal.pnone PVal.pnone PVal.pnone uid

/-- Team `A` (id 1) referencing the example user. -/
def exTeamWithUser : Team :=
  { name := "A", full_name := "A", users := [exRef], team_id := some 1 }

/-- Current model for the falsy-diff scenario: the user's cell phone number
is the empty string. -/
def exCurFalsy : ModelState :=
  builtState [exTeamWithUser] [exUser (PVal.pstr "u@x") (PVal.pstr "") (PVal.pint 3)]

/-- Desired model for the falsy-diff scenario: the user's cell phone number
is `None`, everything else agrees. -/
def exNewFalsy : ModelState :=
  builtState [exTeamWithUser] [exUser (PVal.pstr "u@x") PVal.pnone PVal.pnone]

/-- Current model for the genuine-change scenario. -/
def exCurUpd : ModelState :=
  builtState [exTeamWithUser] [exUser (PVal.pstr "u@x") PVal.pnone (PVal.pint 3)]

/-- Desired model for the genuine-change scenario: only the email
differs. -/
def exNewUpd : ModelState :=
  builtState [exTeamWithUser] [exUser (PVal.pstr "new@x") PVal.pnone PVal.pnone]

/-- The single update payload of the genuine-change scenario. -/
def exUpdPayload : Payload :=
  match (updateUsers exCurUpd exNewUpd exRoleTable).toOption.getD [] with
  | [Op.updateUser _ p] => p
  | _ => { fields := [], team_ids := ∅, role_ids := [], user_id := PVal.pnone }

/-- Current and desired model of the converged scenario: identical teams
and users (the desired copy lacks the opaque user id, which is assigned
remotely and not compared). -/
def exCurAgree : ModelState := exCurUpd

/-- Desired model agreeing with `exCurAgree` on every attribute. -/
def exNewAgree : ModelState :=
  builtState [exTeamWithUser] [exUser (PVal.pstr "u@x") PVal.pnone PVal.pnone]

/-- Model input of the repeated-validation scenario. -/
def exValModel : ModelState :=
  freshState [exTeamWithUser] [exUser (PVal.pstr "u@x") PVal.pnone (PVal.pint 3)]

/-- Example team-level defaults for the serialization round trip. -/
def exDefaults : Defaults :=
  { default_active := some true
    default_authentication_provider_name := some "App"
    default_locale_id := some 1
    default_roles := ["Admin"] }

/-- Example user dictionary lacking the mandatory `locale_id` attribute. -/
def exDictNoLocale : List (Attr × PVal) :=
  [(Attr.username, PVal.pstr "u"),
   (Attr.authentication_provider_name, PVal.pstr "App"),
   (Attr.email, PVal.pstr "u@x"),
   (Attr.first_name, PVal.pstr "F"),
   (Attr.last_name, PVal.pstr "L"),
   (Attr.active, PVal.pbool true)]

/-- Defaults providing nothing (no default for any attribute). -/
def exNoDefaults : Defaults :=
  { default_active := none
    default_authentication_provider_name := none
    default_locale_id := none
    default_roles := [] }

/-- The user denormalized from `exDictNoLocale` (its `locale_id` stays
`None`). -/
def exUserNoLocale : User :=
  (fromDict exDictNoLocale exNoDefaults).toOption.getD (exUser PVal.pnone PVal.pnone PVal.pnone)

/-- The user identity an update call is for (`none` for other calls). -/
def opUserKey : Op → Option UserRef
  | Op.updateUser k _ => some k
  | _ => none

/-- The update calls of a trace that target the given user identity. -/
def updatesFor (ops : List Op) (k : UserRef) : List Op :=
  ops.filter (fun o => opUserKey o = some k)

/-- The update call (if any) the per-user body of `Model.update_users`
produces for a user identity. -/
def updateStepOp (cur new : ModelState) (role_table : List (String × Nat))
    (k : UserRef) : Option Op :=
  match updateStepRes cur new role_table k with
  | Except.ok (some op) => some op
  | _ => none

/-- Example user whose authentication provider name differs from
`exUser`'s. -/
def exUserOther : User :=
  mkUser (PVal.pstr "u") (PVal.pstr "Other") (PVal.pstr "u@x") (PVal.pstr "F")
    (PVal.pstr "L") (PVal.pint 1) (PVal.pset ["Admin"]) (PVal.pbool true)
    (PVal.pset []) PVal.pnone PVal.pnone PVal.pnone PVal.pnone PVal.pnone
    PVal.pnone PVal.pnone

/-- Example baseline user. -/
def exUserBase : User := exUser (PVal.pstr "u@x") PVal.pnone PVal.pnone

/-- Example user whose username differs from `exUser`'s. -/
def exUserVee : User :=
  mkUser (PVal.pstr "v") (PVal.pstr "App") (PVal.pstr "v@x") (PVal.pstr "F")
    (PVal.pstr "L") (PVal.pint 1) (PVal.pset ["Admin"]) (PVal.pbool true)
    (PVal.pset []) PVal.pnone PVal.pnone PVal.pnone PVal.pnone PVal.pnone
    PVal.pnone PVal.pnone

end CxAC

namespace Ptum

open CxAC

/-- Embedding of `ptum.User`: usernames are plain strings (ptum keys users
by username only), `active` is a checked bool, `roles` is a canonical
set. -/
structure PUser : Type where
  username : String
  email : PVal
  first_name : PVal
  last_name : PVal
  authentication_provider_id : PVal
  locale_id : PVal
  roles : List String
  active : Bool
  allowed_ip_list : PVal
  cell_phone_number : PVal
  country : PVal
  expiration_date : PVal
  job_title : PVal
  other : PVal
  phone_number : PVal
  user_id : PVal
  deriving DecidableEq

/-- Embedding of `ptum.Team`: name, full name, the team-level default role
set, owned member users and the remote id. -/
structure PTeam : Type where
  name : String
  full_name : String
  default_roles : List String
  users : List PUser
  team_id : Option Nat
  deriving DecidableEq

/-- Error records of `ptum.py` relevant to cross-team user validation. -/
inductive PErr : Type where
  | invalidDefaultRole : String → String → PErr
  | invalidRole : String → String → String → PErr
  | inconsistentUser : String → String → String → String → PVal → PVal → PErr
  deriving DecidableEq

/-- Embedding of `ptum.Model`: the owned team list plus the two maps built
by `__init__` (`team_map` from full name, `user_map` from username to a
per-team map of user records). -/
structure PModel : Type where
  teams : List PTeam
  team_map : List (String × PTeam)
  user_map : List (String × List (String × PUser))
  deriving DecidableEq

/-- Embedding of `ptum.Model.__init__`. -/
def mkPModel (teams : List PTeam) : PModel :=
  { teams := teams
    team_map := teams.foldl (fun tm t => dInsert tm t.full_name t) []
    user_map := teams.foldl
      (fun um t =>
        t.users.foldl
          (fun um u =>
            dInsert um u.username (dInsert ((dLookup um u.username).getD []) t.full_name u))
          um)
      [] }

/-- Embedding of `ptum.Model.get_user_roles`: the user's own roles if
non-empty, otherwise the owning team's default roles (the effective role
set). -/
def getUserRoles (user : PUser) (team : PTeam) : List String :=
  if user.roles ≠ [] then user.roles else team.default_roles

/-- Is a role name known to the role manager? -/
def validRole (mgr : List (String × Nat)) (r : String) : Bool :=
  ((mgr.find? (fun e => e.1 = r))).isSome

/-- Embedding of `ptum.User.validate_roles`: one `InvalidRole` per unknown
role of the user, named with the owning team. -/
def validateRolesP (mgr : List (String × Nat)) (tfn : String) (u : PUser) : List PErr :=
  u.roles.filterMap (fun r =>
    if validRole mgr r then none else some (PErr.invalidRole tfn u.username r))

/-- Lookup of a team by full name (always succeeds for names coming from
the model's own teams). -/
def teamOf (m : PModel) (tfn : String) : PTeam :=
  (dLookup m.team_map tfn).getD
    { name := "", full_name := "", default_roles := [], users := [], team_id := none }

/-- The item loop of `ptum.Model.validate_user`: the first team/user pair
is remembered (with its effective role set); each later pair is compared
against the first, yielding an `InconsistentUser` record for a differing
email and another for a differing effective role set. -/
def vuLoop (m : PModel) (mgr : List (String × Nat))
    (first : Option (PTeam × PUser × List String)) :
    List (String × PUser) → List PErr
  | [] => []
  | (tfn, user) :: rest =>
    let re := validateRolesP mgr tfn user
    match first with
    | none =>
      let ft := teamOf m tfn
      re ++ vuLoop m mgr (some (ft, user, getUserRoles user ft)) rest
    | some (ft, fu, frs) =>
      let ee :=
        if user.email ≠ fu.email then
          [PErr.inconsistentUser "email" fu.username ft.full_name tfn fu.email user.email]
        else []
      let rs := getUserRoles user (teamOf m tfn)
      let rse :=
        if frs ≠ rs then
          [PErr.inconsistentUser "roles" fu.username ft.full_name tfn
            (PVal.pset frs) (PVal.pset rs)]
        else []
      re ++ ee ++ rse ++ vuLoop m mgr (some (ft, fu, frs)) rest

/-- Embedding of `ptum.Model.validate_user`. -/
def validateUserP (m : PModel) (mgr : List (String × Nat))
    (tum : List (String × PUser)) : List PErr :=
  vuLoop m mgr none tum

/-- Embedding of `ptum.Model.validate`: default-role validation over every
team, then per-username cross-team validation over the user map. -/
def validateP (m : PModel) (mgr : List (String × Nat)) : List PErr :=
  (m.teams.foldl
    (fun es t =>
      es ++ t.default_roles.filterMap (fun r =>
        if validRole mgr r then none else some (PErr.invalidDefaultRole t.full_name r)))
    [])
  ++ (m.user_map.foldl (fun es kv => es ++ validateUserP m mgr kv.2) [])

/-- Is an error record an `InconsistentUser`? -/
def isInconsistent : PErr → Bool
  | PErr.inconsistentUser _ _ _ _ _ _ => true
  | _ => false

/-- Example ptum user with the given email and own role set. -/
def exPUser (em : String) (rs : List String) : PUser :=
  { username := "u"
    email := PVal.pstr em
    first_name := PVal.pnone
    last_name := PVal.pnone
    authentication_provider_id := PVal.pint 1
    locale_id := PVal.pint 1
    roles := rs
    active := true
    allowed_ip_list := PVal.pnone
    cell_phone_number := PVal.pnone
    country := PVal.pnone
    expiration_date := PVal.pnone
    job_title := PVal.pnone
    other := PVal.pnone
    phone_number := PVal.pnone
    user_id := PVal.pnone }

/-- Example ptum team referencing one user, with default roles. -/
def exPTeam (nm : String) (dr : List String) (u : PUser) : PTeam :=
  { name := nm, full_name := nm, default_roles := dr, users := [u], team_id := none }

/-- Model where the shared user's email and effective role set both differ
across the two owning teams. -/
def exBothDiffer : PModel :=
  mkPModel
    [exPTeam "T1" ["Admin"] (exPUser "u@x" []),
     exPTeam "T2" ["Reviewer"] (exPUser "other@x" [])]

end Ptum

namespace CxAC

/-- Example user for the serialization roundtrip: hoistable attributes left
`None` so that denormalization must restore them from the defaults. -/
def exRtUser : User :=
  { username := PVal.pstr "u"
    email := PVal.pstr "e@x"
    first_name := PVal.pstr "F"
    last_name := PVal.pstr "L"
    authentication_provider_name := PVal.pstr "App"
    locale_id := PVal.pnone
    roles := PVal.pnone
    active := PVal.pnone
    allowed_ip_list := PVal.pset []
    cell_phone_number := PVal.pnone
    country := PVal.pnone
    expiration_date := PVal.pnone
    job_title := PVal.pnone
    other := PVal.pnone
    phone_number := PVal.pnone
    user_id := PVal.pnone }

/-- Example team-level defaults for the serialization roundtrip. -/
def exRtDefaults : Defaults :=
  { default_active := some true
    default_authentication_provider_name := some "App"
    default_locale_id := some 1
    default_roles := ["Admin"] }

/-- The normalized dictionary of `exRtUser` under `exRtDefaults`. -/
def exRtDict : List (Attr × PVal) :=
  [(Attr.email, PVal.pstr "e@x"), (Attr.first_name, PVal.pstr "F"),
   (Attr.last_name, PVal.pstr "L"), (Attr.username, PVal.pstr "u")]

/-- The user obtained by denormalizing `exRtDict` under `exRtDefaults`: its
raw hoistable attributes now carry the default values. -/
def exRtUser2 : User :=
  { username := PVal.pstr "u"
    email := PVal.pstr "e@x"
    first_name := PVal.pstr "F"
    last_name := PVal.pstr "L"
    authentication_provider_name := PVal.pstr "App"
    locale_id := PVal.pint 1
    roles := PVal.pset ["Admin"]
    active := PVal.pbool true
    allowed_ip_list := PVal.pset []
    cell_phone_number := PVal.pnone
    country := PVal.pnone
    expiration_date := PVal.pnone
    job_title := PVal.pnone
    other := PVal.pnone
    phone_number := PVal.pnone
    user_id := PVal.pnone }

end CxAC

/-! Order and sorting lemmas. -/

namespace CxAC

theorem lexLt_asymm : ∀ a b : List Char, lexLt a b = true → lexLt b a = false := by
  intro a
  induction a with
  | nil =>
    intro b h
    cases b with
    | nil => simp [lexLt] at h
    | cons y ys => simp [lexLt]
  | cons x xs ih =>
    intro b h
    cases b with
    | nil => simp [lexLt] at h
    | cons y ys =>
      simp only [lexLt] at h ⊢
      by_cases hxy : x < y
      · simp [hxy, asymm hxy]
      · by_cases hyx : y < x
        · simp [hxy, hyx] at h
        · simp only [if_neg hxy, if_neg hyx] at h ⊢
          exact ih ys h

theorem lexLt_trans : ∀ a b c : List Char,
    lexLt a b = true → lexLt b c = true → lexLt a c = true := by
  intro a
  induction a with
  | nil =>
    intro b c h1 h2
    cases b with
    | nil => simp [lexLt] at h1
    | cons y ys =>
      cases c with
      | nil => simp [lexLt] at h2
      | cons z zs => simp [lexLt]
  | cons x xs ih =>
    intro b c h1 h2
    cases b with
    | nil => simp [lexLt] at h1
    | cons y ys =>
      cases c with
      | nil => simp [lexLt] at h2
      | cons z zs =>
        simp only [lexLt] at h1 h2 ⊢
        by_cases hxy : x < y
        · by_cases hyz : y < z
          · simp [lt_trans hxy hyz]
          · by_cases hzy : z < y
            · simp [if_neg hyz, if_pos hzy] at h2
            · have heq : y = z := le_antisymm (not_lt.mp hzy) (not_lt.mp hyz)
              subst heq
              simp [hxy]
        · by_cases hyx : y < x
          · simp [if_neg hxy, if_pos hyx] at h1
          · have heq : x = y := le_antisymm (not_lt.mp hyx) (not_lt.mp hxy)
            subst heq
            simp only [if_neg hxy, if_neg hyx] at h1
            by_cases hyz : x < z
            · simp [hyz]
            · by_cases hzy : z < x
              · simp [if_neg hyz, if_pos hzy] at h2
              · simp only [if_neg hyz, if_neg hzy] at h2 ⊢
                exact ih ys zs h1 h2

theorem lexLt_connex : ∀ a b : List Char,
    lexLt a b = false → lexLt b a = false → a = b := by
  intro a
  induction a with
  | nil =>
    intro b h1 h2
    cases b with
    | nil => rfl
    | cons y ys => simp [lexLt] at h1
  | cons x xs ih =>
    intro b h1 h2
    cases b with
    | nil => simp [lexLt] at h2
    | cons y ys =>
      simp only [lexLt] at h1 h2
      by_cases hxy : x < y
      · simp [if_pos hxy] at h1
      · by_cases hyx : y < x
        · simp [if_pos hyx] at h2
        · have heq : x = y := le_antisymm (not_lt.mp hyx) (not_lt.mp hxy)
          subst heq
          simp only [if_neg hxy, if_neg hyx] at h1 h2
          rw [ih ys h1 h2]

theorem pyLt_asymm {a b : String} (h : pyLt a b = true) : pyLt b a = false :=
  lexLt_asymm a.data b.data h

theorem pyLt_connex {a b : String} (h1 : pyLt a b = false) (h2 : pyLt b a = false) :
    a = b := by
  have h3 := lexLt_connex a.data b.data h1 h2
  cases a
  cases b
  exact congrArg String.mk h3

theorem pyLe_total (a b : String) : pyLe a b = true ∨ pyLe b a = true := by
  unfold pyLe
  by_cases h : pyLt b a = true
  · right
    rw [pyLt_asymm h]
    rfl
  · left
    rw [Bool.not_eq_true] at h
    rw [h]
    rfl

theorem pyLe_trans {a b c : String} (h1 : pyLe a b = true) (h2 : pyLe b c = true) :
    pyLe a c = true := by
  unfold pyLe at h1 h2 ⊢
  rw [Bool.not_eq_true'] at h1 h2 ⊢
  by_cases hca : pyLt c a = true
  · by_cases hab : pyLt a b = true
    · have h3 : pyLt c b = true := lexLt_trans c.data a.data b.data hca hab
      rw [h3] at h2
      exact absurd h2 (by simp)
    · rw [Bool.not_eq_true] at hab
      have heq : a = b := pyLt_connex hab h1
      subst heq
      rw [hca] at h2
      exact absurd h2 (by simp)
  · rwa [Bool.not_eq_true] at hca

theorem pyLt_of_le_of_ne {a b : String} (h1 : pyLe a b = true) (h2 : a ≠ b) :
    pyLt a b = true := by
  unfold pyLe at h1
  rw [Bool.not_eq_true'] at h1
  by_cases h : pyLt a b = true
  · exact h
  · rw [Bool.not_eq_true] at h
    exact absurd (pyLt_connex h h1) h2

theorem insertAsc_perm (x : String) (l : List String) :
    List.Perm (insertAsc x l) (x :: l) := by
  induction l with
  | nil => exact List.Perm.refl _
  | cons y ys ih =>
    by_cases h : pyLe x y = true
    · simp [insertAsc, h]
    · simp only [insertAsc, h, Bool.false_eq_true, if_false]
      exact (ih.cons y).trans (List.Perm.swap x y ys)

theorem sortAsc_perm (l : List String) : List.Perm (sortAsc l) l := by
  induction l with
  | nil => exact List.Perm.refl _
  | cons x xs ih =>
    have h : sortAsc (x :: xs) = insertAsc x (sortAsc xs) := rfl
    rw [h]
    exact (insertAsc_perm x (sortAsc xs)).trans (ih.cons x)

theorem sortAsc_nodup {l : List String} (h : l.Nodup) : (sortAsc l).Nodup :=
  (sortAsc_perm l).nodup_iff.mpr h

theorem mem_insertAsc {x y : String} {l : List String} :
    y ∈ insertAsc x l ↔ y = x ∨ y ∈ l := by
  rw [(insertAsc_perm x l).mem_iff]
  simp

theorem pairwise_insertAsc {x : String} {l : List String}
    (h : l.Pairwise (fun a b => pyLe a b = true)) :
    (insertAsc x l).Pairwise (fun a b => pyLe a b = true) := by
  induction l with
  | nil => simp [insertAsc]
  | cons y ys ih =>
    rcases List.pairwise_cons.mp h with ⟨hy, hys⟩
    by_cases hxy : pyLe x y = true
    · simp only [insertAsc, hxy, if_true]
      refine List.pairwise_cons.mpr ⟨?_, h⟩
      intro z hz
      rcases List.mem_cons.mp hz with rfl | hz
      · exact hxy
      · exact pyLe_trans hxy (hy z hz)
    · simp only [insertAsc, hxy, Bool.false_eq_true, if_false]
      refine List.pairwise_cons.mpr ⟨?_, ih hys⟩
      intro z hz
      rcases mem_insertAsc.mp hz with rfl | hz
      · rcases pyLe_total z y with h' | h'
        · exact absurd h' hxy
        · exact h'
      · exact hy z hz

theorem sortAsc_sorted (l : List String) :
    (sortAsc l).Pairwise (fun a b => pyLe a b = true) := by
  induction l with
  | nil => simp [sortAsc]
  | cons x xs ih => exact pairwise_insertAsc ih

theorem sortAsc_pairwise_lt {l : List String} (h : l.Nodup) :
    (sortAsc l).Pairwise (fun a b => pyLt a b = true) := by
  have h1 := sortAsc_sorted l
  have h2 : (sortAsc l).Pairwise (· ≠ ·) := sortAsc_nodup h
  exact (h1.and h2).imp (fun hab => pyLt_of_le_of_ne hab.1 hab.2)

end CxAC

/-! Dictionary lemmas. -/

namespace CxAC

section DictLemmas

variable {K V : Type} [DecidableEq K]

theorem dLookup_isSome_iff {d : List (K × V)} {k : K} :
    (dLookup d k).isSome ↔ k ∈ d.map Prod.fst := by
  induction d with
  | nil => simp [dLookup]
  | cons kv d ih =>
    by_cases h : kv.1 = k
    · simp [dLookup, h]
    · have h' : ¬ k = kv.1 := fun hk => h hk.symm
      simp [dLookup, h, ih, h']

theorem mem_dKeys {d : List (K × V)} {k : K} :
    k ∈ dKeys d ↔ (dLookup d k).isSome := by
  rw [dLookup_isSome_iff]
  simp [dKeys, List.mem_dedup]

theorem dLookup_mem {d : List (K × V)} {k : K} {v : V}
    (h : dLookup d k = some v) : (k, v) ∈ d := by
  induction d with
  | nil => simp [dLookup] at h
  | cons kv d ih =>
    by_cases hk : kv.1 = k
    · simp only [dLookup, hk, if_pos] at h
      rw [List.mem_cons]
      left
      have hv : kv.2 = v := by injection h
      cases kv
      simp at hk hv
      simp [hk, hv]
    · simp only [dLookup, if_neg hk] at h
      exact List.mem_cons_of_mem _ (ih h)

theorem map_fst_overwrite {d : List (K × V)} {k : K} {v : V} :
    (d.map (fun kv => if kv.1 = k then (k, v) else kv)).map Prod.fst =
      d.map Prod.fst := by
  induction d with
  | nil => rfl
  | cons kv d ih =>
    by_cases h : kv.1 = k
    · simp [h, ih]
    · simp [h, ih]

theorem dKeys_dInsert_mem {d : List (K × V)} {k k' : K} {v : V} :
    k' ∈ dKeys (dInsert d k v) ↔ k' = k ∨ k' ∈ dKeys d := by
  unfold dInsert
  by_cases h : (dLookup d k).isSome
  · rw [if_pos h]
    have hk : k ∈ dKeys d := mem_dKeys.mpr h
    simp only [dKeys, map_fst_overwrite]
    constructor
    · intro h'
      exact Or.inr h'
    · intro h'
      rcases h' with rfl | h'
      · exact hk
      · exact h'
  · rw [if_neg h]
    simp [dKeys, List.mem_dedup, or_comm]

theorem dLookup_overwrite_self {d : List (K × V)} {k : K} {v : V} :
    dLookup (d.map (fun kv => if kv.1 = k then (k, v) else kv)) k =
      if (dLookup d k).isSome then some v else none := by
  induction d with
  | nil => simp [dLookup]
  | cons kv d ih =>
    by_cases h : kv.1 = k
    · simp [dLookup, h]
    · simp only [List.map_cons, dLookup, if_neg h]
      exact ih

theorem dLookup_append {d1 d2 : List (K × V)} {k : K} :
    dLookup (d1 ++ d2) k =
      if (dLookup d1 k).isSome then dLookup d1 k else dLookup d2 k := by
  induction d1 with
  | nil => simp [dLookup]
  | cons kv d ih =>
    by_cases h : kv.1 = k
    · simp [dLookup, h]
    · simp only [List.cons_append, dLookup, if_neg h]
      exact ih

theorem dLookup_dInsert_self {d : List (K × V)} {k : K} {v : V} :
    dLookup (dInsert d k v) k = some v := by
  unfold dInsert
  by_cases h : (dLookup d k).isSome
  · rw [if_pos h, dLookup_overwrite_self, if_pos h]
  · rw [if_neg h, dLookup_append, if_neg h]
    simp [dLookup]

theorem dLookup_overwrite_ne {d : List (K × V)} {k k' : K} {v : V} (h : k' ≠ k) :
    dLookup (d.map (fun kv => if kv.1 = k then (k, v) else kv)) k' =
      dLookup d k' := by
  induction d with
  | nil => rfl
  | cons kv d ih =>
    by_cases hk : kv.1 = k
    · have h1 : ¬ (k = k') := fun hk' => h hk'.symm
      have h2 : ¬ (kv.1 = k') := by
        rw [hk]
        exact h1
      simp only [List.map_cons, if_pos hk, dLookup, if_neg h1, if_neg h2]
      exact ih
    · simp only [List.map_cons, if_neg hk, dLookup]
      by_cases h2 : kv.1 = k'
      · rw [if_pos h2, if_pos h2]
      · rw [if_neg h2, if_neg h2]
        exact ih

theorem dLookup_dInsert_ne {d : List (K × V)} {k k' : K} {v : V} (h : k' ≠ k) :
    dLookup (dInsert d k v) k' = dLookup d k' := by
  unfold dInsert
  by_cases hs : (dLookup d k).isSome
  · rw [if_pos hs]
    exact dLookup_overwrite_ne h
  · rw [if_neg hs, dLookup_append]
    by_cases h2 : (dLookup d k').isSome
    · rw [if_pos h2]
  
    · rw [if_neg h2]
      have h3 : ¬ (k = k') := fun hk => h hk.symm
      simp only [dLookup, if_neg h3]
      rw [Option.not_isSome_iff_eq_none] at h2
      rw [h2]

theorem dInsert_nodupKeys {d : List (K × V)} {k : K} {v : V}
    (h : (d.map Prod.fst).Nodup) :
    ((dInsert d k v).map Prod.fst).Nodup := by
  unfold dInsert
  by_cases hs : (dLookup d k).isSome
  · rw [if_pos hs, map_fst_overwrite]
    exact h
  · rw [if_neg hs]
    have hk : ¬ k ∈ d.map Prod.fst := fun hm =>
      hs (dLookup_isSome_iff.mpr hm)
    simp [List.nodup_append, h, hk]

theorem overwrite_eq_self {d : List (K × V)} {k : K} {v : V}
    (hn : (d.map Prod.fst).Nodup) (h : dLookup d k = some v) :
    d.map (fun kv => if kv.1 = k then (k, v) else kv) = d := by
  induction d with
  | nil => rfl
  | cons kv d ih =>
    rcases List.nodup_cons.mp hn with ⟨hk1, hk2⟩
    by_cases hk : kv.1 = k
    · simp only [dLookup, if_pos hk] at h
      have hv : v = kv.2 := by
        injection h with h
        exact h.symm
      have hrest : d.map (fun kv' => if kv'.1 = k then (k, v) else kv') = d := by
        conv_rhs => rw [← List.map_id d]
        apply List.map_congr_left
        intro kv' hkv'
        have hne : kv'.1 ≠ k := by
          rw [← hk]
          intro hc
          exact hk1 (hc ▸ List.mem_map_of_mem Prod.fst hkv')
        rw [if_neg hne]
        rfl
      simp only [List.map_cons, if_pos hk, hrest]
      rw [← hk, hv]
  
    · simp only [dLookup, if_neg hk] at h
      simp only [List.map_cons, if_neg hk]
      rw [ih hk2 h]

theorem dInsert_self_eq {d : List (K × V)} {k : K} {v : V}
    (hn : (d.map Prod.fst).Nodup) (h : dLookup d k = some v) :
    dInsert d k v = d := by
  unfold dInsert
  rw [if_pos (by simp [h]), overwrite_eq_self hn h]

theorem dInsert_mem {d : List (K × V)} {k : K} {v : V} {kv : K × V}
    (h : kv ∈ dInsert d k v) : kv = (k, v) ∨ kv ∈ d := by
  unfold dInsert at h
  by_cases hs : (dLookup d k).isSome
  · rw [if_pos hs] at h
    rcases List.mem_map.mp h with ⟨kv', hkv', heq⟩
    by_cases hk : kv'.1 = k
    · rw [if_pos hk] at heq
      exact Or.inl heq.symm
    · rw [if_neg hk] at heq
      exact Or.inr (heq ▸ hkv')
  · rw [if_neg hs] at h
    rcases List.mem_append.mp h with h | h
    · exact Or.inr h
    · simp at h
      exact Or.inl h

end DictLemmas

end CxAC

/-! Keyed-fold lemmas. -/

namespace CxAC

section KeyFoldLemmas

variable {α K V E : Type} [DecidableEq K]

theorem keyFold_nil {key : α → K} {val : α → V} {d0 : List (K × V)} :
    keyFold key val [] d0 = d0 := rfl

theorem keyFold_cons {key : α → K} {val : α → V} {x : α} {l : List α}
    {d0 : List (K × V)} :
    keyFold key val (x :: l) d0 = keyFold key val l (dInsert d0 (key x) (val x)) := rfl

theorem mem_dKeys_keyFold {key : α → K} {val : α → V} {l : List α}
    {d0 : List (K × V)} {k : K} :
    k ∈ dKeys (keyFold key val l d0) ↔ k ∈ dKeys d0 ∨ ∃ x ∈ l, key x = k := by
  induction l generalizing d0 with
  | nil => simp [keyFold_nil]
  | cons x xs ih =>
    rw [keyFold_cons, ih]
    simp only [dKeys_dInsert_mem, List.mem_cons]
    constructor
    · intro h
      rcases h with (rfl | h) | ⟨y, hy, hk⟩
      · exact Or.inr ⟨x, Or.inl rfl, rfl⟩
      · exact Or.inl h
      · exact Or.inr ⟨y, Or.inr hy, hk⟩
    · intro h
      rcases h with h | ⟨y, (rfl | hy), hk⟩
      · exact Or.inl (Or.inr h)
      · exact Or.inl (Or.inl hk.symm)
      · exact Or.inr ⟨y, hy, hk⟩

theorem mem_entries_keyFold {key : α → K} {val : α → V} {l : List α}
    {d0 : List (K × V)} {kv : K × V} (h : kv ∈ keyFold key val l d0) :
    kv ∈ d0 ∨ ∃ x ∈ l, key x = kv.1 ∧ val x = kv.2 := by
  induction l generalizing d0 with
  | nil => exact Or.inl h
  | cons x xs ih =>
    rw [keyFold_cons] at h
    rcases ih h with h' | ⟨y, hy, hk, hv⟩
    · rcases dInsert_mem h' with rfl | h''
      · exact Or.inr ⟨x, List.mem_cons_self x xs, rfl, rfl⟩
      · exact Or.inl h''
    · exact Or.inr ⟨y, List.mem_cons_of_mem x hy, hk, hv⟩

theorem keyFold_lookup_frozen {key : α → K} {val : α → V} {l : List α}
    {d0 : List (K × V)} {k : K} (h : ∀ x ∈ l, key x ≠ k) :
    dLookup (keyFold key val l d0) k = dLookup d0 k := by
  induction l generalizing d0 with
  | nil => rfl
  | cons x xs ih =>
    rw [keyFold_cons, ih (fun y hy => h y (List.mem_cons_of_mem x hy))]
    exact dLookup_dInsert_ne (fun hk => h x (List.mem_cons_self x xs) hk.symm)

theorem keyFold_lookup_self {key : α → K} {val : α → V} {l : List α}
    (hn : (l.map key).Nodup) {x : α} (hx : x ∈ l) (d0 : List (K × V)) :
    dLookup (keyFold key val l d0) (key x) = some (val x) := by
  induction l generalizing d0 with
  | nil => simp at hx
  | cons y ys ih =>
    rcases List.nodup_cons.mp hn with ⟨hy1, hy2⟩
    rcases List.mem_cons.mp hx with rfl | hx'
    · rw [keyFold_cons]
      rw [keyFold_lookup_frozen (fun z hz hk =>
        hy1 (by rw [← hk]; exact List.mem_map_of_mem key hz))]
      exact dLookup_dInsert_self
    · rw [keyFold_cons]
      exact ih hy2 hx' _

theorem keyFold_nodupKeys {key : α → K} {val : α → V} {l : List α}
    {d0 : List (K × V)} (h : (d0.map Prod.fst).Nodup) :
    ((keyFold key val l d0).map Prod.fst).Nodup := by
  induction l generalizing d0 with
  | nil => exact h
  | cons x xs ih =>
    rw [keyFold_cons]
    exact ih (dInsert_nodupKeys h)

theorem keyFoldErr_nil {key : α → K} {val : α → V} {er : α → E}
    {d0 : List (K × V)} {es0 : List E} :
    keyFoldErr key val er [] d0 es0 = (d0, es0) := rfl

theorem keyFoldErr_cons {key : α → K} {val : α → V} {er : α → E} {x : α}
    {l : List α} {d0 : List (K × V)} {es0 : List E} :
    keyFoldErr key val er (x :: l) d0 es0 =
      keyFoldErr key val er l (dInsert d0 (key x) (val x))
        (es0 ++ (if (dLookup d0 (key x)).isSome then [er x] else [])) := rfl

theorem keyFoldErr_fst {key : α → K} {val : α → V} {er : α → E} {l : List α}
    {d0 : List (K × V)} {es0 : List E} :
    (keyFoldErr key val er l d0 es0).1 = keyFold key val l d0 := by
  induction l generalizing d0 es0 with
  | nil => rfl
  | cons x xs ih =>
    rw [keyFoldErr_cons, keyFold_cons]
    exact ih

theorem keyFoldErr_clean {key : α → K} {val : α → V} {er : α → E} {l : List α}
    {d0 : List (K × V)} {es0 : List E} (hn : (l.map key).Nodup)
    (h : ∀ x ∈ l, ¬ (dLookup d0 (key x)).isSome) :
    (keyFoldErr key val er l d0 es0).2 = es0 := by
  induction l generalizing d0 es0 with
  | nil => rfl
  | cons x xs ih =>
    rcases List.nodup_cons.mp hn with ⟨hx1, hx2⟩
    rw [keyFoldErr_cons,
      if_neg (h x (List.mem_cons_self x xs)), List.append_nil]
    apply ih hx2
    intro y hy
    rw [dLookup_dInsert_ne (fun hk =>
      hx1 (by rw [← hk]; exact List.mem_map_of_mem key hy))]
    exact h y (List.mem_cons_of_mem x hy)

theorem keyFoldErr_alldup {key : α → K} {val : α → V} {er : α → E} {l : List α}
    {d0 : List (K × V)} {es0 : List E} (hn : (d0.map Prod.fst).Nodup)
    (h : ∀ x ∈ l, dLookup d0 (key x) = some (val x)) :
    keyFoldErr key val er l d0 es0 = (d0, es0 ++ l.map er) := by
  induction l generalizing es0 with
  | nil => simp [keyFoldErr_nil]
  | cons x xs ih =>
    have hx := h x (List.mem_cons_self x xs)
    rw [keyFoldErr_cons, if_pos (by simp [hx]), dInsert_self_eq hn hx]
    rw [ih (fun y hy => h y (List.mem_cons_of_mem x hy))]
    simp

end KeyFoldLemmas

end CxAC

/-! Reconciliation ordering lemmas (team creation and deletion). -/

namespace CxAC

theorem addTeamsLoop_names {ntm : List (String × Team)} {assign : String → Option Nat} :
    ∀ (l : List String) (tm : List (String × Team)) (ops : List Op)
      (tm' : List (String × Team)),
    addTeamsLoop ntm assign l tm = Except.ok (ops, tm') → createdFullNames ops = l := by
  intro l
  induction l with
  | nil =>
    intro tm ops tm' h
    simp only [addTeamsLoop] at h
    injection h with h
    injection h with h1 h2
    rw [← h1]
    rfl
  | cons full rest ih =>
    intro tm ops tm' h
    cases hteam : lookupE ntm full with
    | error e =>
      simp only [addTeamsLoop, hteam] at h
      exact Except.noConfusion h
    | ok team =>
      cases hpar : lookupE tm (getTeamParentName full) with
      | error e =>
        simp only [addTeamsLoop, hteam, hpar] at h
        exact Except.noConfusion h
      | ok parent =>
        cases hrec : addTeamsLoop ntm assign rest
            (dInsert tm team.full_name { team with team_id := assign team.full_name }) with
        | error e =>
          simp only [addTeamsLoop, hteam, hpar, hrec] at h
          exact Except.noConfusion h
        | ok step =>
          simp only [addTeamsLoop, hteam, hpar, hrec] at h
          injection h with h
          injection h with h1 h2
          rw [← h1]
          have hrest : createdFullNames step.1 = rest := ih _ step.1 step.2 hrec
          simp only [createdFullNames, List.filterMap_cons] at hrest ⊢
          rw [hrest]

theorem addTeams_ok_names {cur new : ModelState} {assign : String → Option Nat}
    {ops : List Op} {st : ModelState}
    (h : addTeams cur new assign = Except.ok (ops, st)) :
    createdFullNames ops =
      sortAsc ((dKeys new.team_map).filter (fun n => ¬ n ∈ dKeys cur.team_map)) := by
  simp only [addTeams] at h
  cases hloop : addTeamsLoop new.team_map assign
      (sortAsc ((dKeys new.team_map).filter (fun n => ¬ n ∈ dKeys cur.team_map)))
      new.team_map with
  | error e => rw [hloop] at h; exact Except.noConfusion h
  | ok step =>
    rw [hloop] at h
    injection h with h
    injection h with h1 h2
    rw [← h1]
    exact addTeamsLoop_names _ _ step.1 step.2 hloop

theorem deletedFullNames_map (l : List String) (f : String → Option Nat) :
    deletedFullNames (l.map (fun full => Op.deleteTeam full (f full))) = l := by
  induction l with
  | nil => rfl
  | cons x xs ih =>
    simp only [deletedFullNames] at ih
    simp only [List.map_cons, deletedFullNames, List.filterMap_cons, ih]

end CxAC

/-! Claim C1. -/

/-- C1 counterexample: for desired teams `A` and `A/B` both absent from an
empty current model, `add_teams` does not issue the creation call for `A`
first — it issues no creation call at all, because the loop looks up
`A`'s parent (the empty string `""`, not a key of the team map) before
calling `create_team`, raising a `KeyError`. -/
theorem C1_counterexample :
    CxAC.addTeams CxAC.exCurEmpty CxAC.exNewAAB CxAC.exAssign =
      Except.error "KeyError" := by decide

/-- C1 (amended): whenever `add_teams` completes without raising, the team
creation calls are issued in strictly ascending lexical order of full name
(so every parent team is created before any of its children); concretely,
for current team `A` and desired teams `A`, `A/B`, `A/B/C`, the call for
`A/B` is issued strictly before the call for `A/B/C`.  The original
claim's concrete scenario (desired `A` and `A/B` over an empty current
model) instead raises a `KeyError` when looking up `A`'s parent before any
call is issued. -/
theorem C1_creation_order_amended :
    (∀ (cur new : CxAC.ModelState) (assign : String → Option Nat)
        (ops : List CxAC.Op) (st : CxAC.ModelState),
        CxAC.addTeams cur new assign = Except.ok (ops, st) →
        (CxAC.createdFullNames ops).Pairwise (fun a b => CxAC.pyLt a b = true))
    ∧ (CxAC.addTeams CxAC.exCurA CxAC.exNewABC CxAC.exAssign2 =
        Except.ok CxAC.exCreateRes ∧
       CxAC.createdFullNames CxAC.exCreateRes.1 = ["A/B", "A/B/C"]) := by
  constructor
  · intro cur new assign ops st h
    rw [CxAC.addTeams_ok_names h]
    apply CxAC.sortAsc_pairwise_lt
    exact (List.nodup_dedup _).filter _
  · constructor
    · decide
    · decide

/-- C1 witness: the amended ordering theorem applied to the concrete
`A`, `A/B`, `A/B/C` scenario. -/
theorem C1_creation_order_amended_witness :
    CxAC.addTeams CxAC.exCurA CxAC.exNewABC CxAC.exAssign2 =
      Except.ok CxAC.exCreateRes ∧
    (CxAC.createdFullNames CxAC.exCreateRes.1).Pairwise
      (fun a b => CxAC.pyLt a b = true) :=
  ⟨by decide,
   C1_creation_order_amended.1 CxAC.exCurA CxAC.exNewABC CxAC.exAssign2
     CxAC.exCreateRes.1 CxAC.exCreateRes.2 (by decide)⟩

/-! Claim C2. -/

/-- C2: `delete_teams` issues its deletion calls in strictly descending
lexical order of full name, for every pair of models (so a child team's
deletion call is never issued after its parent's); concretely, for current
teams `A` and `A/B` both absent from the desired model, the deletion call
for `A/B` is issued strictly before the deletion call for `A`. -/
theorem C2_deletion_order :
    (∀ cur new : CxAC.ModelState,
        (CxAC.deletedFullNames (CxAC.deleteTeams cur new)).Pairwise
          (fun a b => CxAC.pyLt b a = true))
    ∧ CxAC.deleteTeams CxAC.exCurDel CxAC.exNewEmpty =
        [CxAC.Op.deleteTeam "A/B" (some 2), CxAC.Op.deleteTeam "A" (some 1)] := by
  constructor
  · intro cur new
    have h1 : CxAC.deleteTeams cur new =
        (CxAC.sortAsc ((CxAC.dKeys cur.team_map).filter
          (fun n => ¬ n ∈ CxAC.dKeys new.team_map))).reverse.map
          (fun full => CxAC.Op.deleteTeam full
            (match CxAC.dLookup cur.team_map full with
             | some t => t.team_id
             | none => none)) := rfl
    rw [h1, CxAC.deletedFullNames_map, List.pairwise_reverse]
    apply CxAC.sortAsc_pairwise_lt
    exact (List.nodup_dedup _).filter _
  · decide

/-! Update-diff lemmas. -/

namespace CxAC

theorem attrEqual_self (v : PVal) (t : PType) : attrEqual v v t = true := by
  unfold attrEqual
  by_cases h : t ≠ PType.tbool ∧ truthy v = false ∧ truthy v = false
  · rw [if_pos h]
  · rw [if_neg h]
    simp

theorem diff_foldl_fst (u1 u2 : User) :
    ∀ (L : List (Attr × PType × Bool)) (acc : List (Attr × PVal)) (b : Bool),
    (L.foldl (diffStep u1 u2) (acc, b)).1 =
      acc ++ L.map (fun e => (e.1,
        if attrEqual (getAttr u1 e.1) (getAttr u2 e.1) e.2.1 = true then getAttr u1 e.1
        else getAttr u2 e.1)) := by
  intro L
  induction L with
  | nil =>
    intro acc b
    simp
  | cons e L ih =>
    intro acc b
    rw [List.foldl_cons]
    cases hb : attrEqual (getAttr u1 e.1) (getAttr u2 e.1) e.2.1 with
    | false =>
      simp only [diffStep, hb]
      rw [if_pos trivial, ih]
      simp [hb]
    | true =>
      simp only [diffStep, hb]
      rw [if_neg (by simp), ih]
      simp [hb]

theorem diff_foldl_snd (u1 u2 : User) :
    ∀ (L : List (Attr × PType × Bool)) (acc : List (Attr × PVal)) (b : Bool),
    (L.foldl (diffStep u1 u2) (acc, b)).2 =
      (b || L.any (fun e => !(attrEqual (getAttr u1 e.1) (getAttr u2 e.1) e.2.1))) := by
  intro L
  induction L with
  | nil =>
    intro acc b
    simp
  | cons e L ih =>
    intro acc b
    rw [List.foldl_cons]
    cases hb : attrEqual (getAttr u1 e.1) (getAttr u2 e.1) e.2.1 with
    | false =>
      simp only [diffStep, hb]
      rw [if_pos trivial, ih]
      simp [hb]
    | true =>
      simp only [diffStep, hb]
      rw [if_neg (by simp), ih]
      simp [hb]

theorem diffFields_fst (u1 u2 : User) :
    (diffFields u1 u2).1 = comparedAttrs.map (fun e => (e.1,
      if attrEqual (getAttr u1 e.1) (getAttr u2 e.1) e.2.1 = true then getAttr u1 e.1
      else getAttr u2 e.1)) := by
  rw [diffFields, diff_foldl_fst]
  simp

theorem diffFields_snd (u1 u2 : User) :
    (diffFields u1 u2).2 =
      comparedAttrs.any (fun e => !(attrEqual (getAttr u1 e.1) (getAttr u2 e.1) e.2.1)) := by
  rw [diffFields, diff_foldl_snd]
  simp

theorem getUpdates_eq {u1 u2 : User} {t1 t2 : Finset (Option Nat)}
    {mgr : List (String × Nat)} {ids1 ids2 : List Nat}
    (hu : u1.username = u2.username)
    (ha : u1.authentication_provider_name = u2.authentication_provider_name)
    (h1 : (rolesList u1).mapM (idFromName mgr) = Except.ok ids1)
    (h2 : (rolesList u2).mapM (idFromName mgr) = Except.ok ids2) :
    getUpdates u1 u2 t1 t2 mgr =
      Except.ok (if hasDiff u1 u2 t1 t2 = true
                 then some (fullPayload u1 u2 t1 t2 ids1 ids2) else none) := by
  simp only [getUpdates]
  rw [if_neg (fun hc => hc hu), if_neg (fun hc => hc ha)]
  by_cases hr : u1.roles = u2.roles
  · rw [if_neg (fun hc => hc hr), h1]
    by_cases ht : t1 = t2
    · subst ht
      rw [if_neg (fun hc => hc rfl)]
      simp only [hasDiff, fullPayload, hr]
      by_cases hf : (diffFields u1 u2).2 = true
      · simp [hf, hr]
      · rw [Bool.not_eq_true] at hf
        simp [hf, hr]
    · rw [if_pos ht]
      simp [hasDiff, fullPayload, ht, hr]
  · rw [if_pos hr, h2]
    simp only [hasDiff, fullPayload, hr]
    by_cases ht : t1 = t2 <;> simp [ht, hr]

end CxAC

/-! Claim C5. -/

/-- C5: `get_updates` treats the identity fields as immutable — for any two
user records and any team-id sets, a differing username raises an
immediate `ValueError`, and with equal usernames a differing
authentication provider name raises an immediate `ValueError`; in either
case the result is an exception, not an update payload, so no update call
can be issued for that user. -/
theorem C5_identity_immutable : ∀ (u1 u2 : CxAC.User) (t1 t2 : Finset (Option Nat))
    (mgr : List (String × Nat)),
    (u1.username ≠ u2.username →
      CxAC.getUpdates u1 u2 t1 t2 mgr =
        Except.error "Cannot generate updates for different users")
    ∧ (u1.username = u2.username →
       u1.authentication_provider_name ≠ u2.authentication_provider_name →
       CxAC.getUpdates u1 u2 t1 t2 mgr =
         Except.error "Cannot change authentication provider name") := by
  intro u1 u2 t1 t2 mgr
  constructor
  · intro h
    simp only [CxAC.getUpdates]
    rw [if_pos h]
  · intro he h
    simp only [CxAC.getUpdates]
    rw [if_neg (fun hc => hc he), if_pos h]

/-- C5 witness: the immutability errors at concrete users differing in
username, respectively in authentication provider name. -/
theorem C5_identity_immutable_witness :
    CxAC.getUpdates CxAC.exUserBase CxAC.exUserVee {some 1} {some 1} CxAC.exRoleTable =
      Except.error "Cannot generate updates for different users" ∧
    CxAC.getUpdates CxAC.exUserBase CxAC.exUserOther {some 1} {some 1} CxAC.exRoleTable =
      Except.error "Cannot change authentication provider name" :=
  ⟨(C5_identity_immutable CxAC.exUserBase CxAC.exUserVee {some 1} {some 1}
      CxAC.exRoleTable).1 (by decide),
   (C5_identity_immutable CxAC.exUserBase CxAC.exUserOther {some 1} {some 1}
      CxAC.exRoleTable).2 (by decide) (by decide)⟩

/-! Claim C3. -/

/-- C3: in the per-user update diff, two falsy (empty/absent) values of a
non-bool attribute type count as unchanged even when one is `None` and the
other an empty string or list, while bool attributes are compared by plain
value; consequently a user present in both models whose per-field
differences are all of the falsy-falsy kind (with equal roles and equal
team-id sets) yields no update payload, and the concrete empty-string
versus `None` scenario emits no update call. -/
theorem C3_falsy_equivalence :
    (∀ t : CxAC.PType, t ≠ CxAC.PType.tbool → ∀ a b : CxAC.PVal,
        CxAC.truthy a = false → CxAC.truthy b = false → CxAC.attrEqual a b t = true)
    ∧ (∀ a b : CxAC.PVal, CxAC.attrEqual a b CxAC.PType.tbool = decide (a = b))
    ∧ (∀ (u1 u2 : CxAC.User) (tids : Finset (Option Nat))
        (mgr : List (String × Nat)) (ids : List Nat),
        u1.username = u2.username →
        u1.authentication_provider_name = u2.authentication_provider_name →
        u1.roles = u2.roles →
        (∀ e ∈ CxAC.comparedAttrs, CxAC.getAttr u1 e.1 = CxAC.getAttr u2 e.1 ∨
          (e.2.1 ≠ CxAC.PType.tbool ∧ CxAC.truthy (CxAC.getAttr u1 e.1) = false ∧
            CxAC.truthy (CxAC.getAttr u2 e.1) = false)) →
        (CxAC.rolesList u1).mapM (CxAC.idFromName mgr) = Except.ok ids →
        CxAC.getUpdates u1 u2 tids tids mgr = Except.ok none)
    ∧ CxAC.updateUsers CxAC.exCurFalsy CxAC.exNewFalsy CxAC.exRoleTable =
        Except.ok [] := by
  refine ⟨?_, ?_, ?_, by decide⟩
  · intro t ht a b hfa hfb
    unfold CxAC.attrEqual
    rw [if_pos ⟨ht, hfa, hfb⟩]
  · intro a b
    unfold CxAC.attrEqual
    rw [if_neg (fun hc => hc.1 rfl)]
  · intro u1 u2 tids mgr ids hu ha hr hattrs hids
    have hrl : CxAC.rolesList u2 = CxAC.rolesList u1 := by
      simp only [CxAC.rolesList, hr]
    have h2 : (CxAC.rolesList u2).mapM (CxAC.idFromName mgr) = Except.ok ids := by
      rw [hrl]
      exact hids
    rw [CxAC.getUpdates_eq hu ha hids h2]
    have hany : (CxAC.comparedAttrs.any fun e =>
        !CxAC.attrEqual (CxAC.getAttr u1 e.1) (CxAC.getAttr u2 e.1) e.2.1) = false := by
      rw [List.any_eq_false]
      intro e he
      have hae : CxAC.attrEqual (CxAC.getAttr u1 e.1) (CxAC.getAttr u2 e.1) e.2.1 = true := by
        rcases hattrs e he with heq | ⟨ht, hfa, hfb⟩
        · rw [heq]
          exact CxAC.attrEqual_self _ _
        · unfold CxAC.attrEqual
          rw [if_pos ⟨ht, hfa, hfb⟩]
      simp [hae]
    have hd : CxAC.hasDiff u1 u2 tids tids = false := by
      simp [CxAC.hasDiff, CxAC.diffFields_snd, hr, hany]
    rw [hd]
    simp

/-- C3 witness: the no-payload conclusion at the concrete users whose only
per-field difference is an empty-string versus `None` cell phone number. -/
theorem C3_falsy_equivalence_witness :
    CxAC.getUpdates (CxAC.exUser (CxAC.PVal.pstr "u@x") (CxAC.PVal.pstr "") (CxAC.PVal.pint 3))
      (CxAC.exUser (CxAC.PVal.pstr "u@x") CxAC.PVal.pnone CxAC.PVal.pnone)
      {some 1} {some 1} CxAC.exRoleTable = Except.ok none :=
  C3_falsy_equivalence.2.2.1
    (CxAC.exUser (CxAC.PVal.pstr "u@x") (CxAC.PVal.pstr "") (CxAC.PVal.pint 3))
    (CxAC.exUser (CxAC.PVal.pstr "u@x") CxAC.PVal.pnone CxAC.PVal.pnone)
    {some 1} CxAC.exRoleTable [1]
    (by decide) (by decide) (by decide) (by decide) (by decide)

/-! Per-user update-call lemmas. -/

namespace CxAC

theorem updateUsersLoop_filterMap {cur new : ModelState} {mgr : List (String × Nat)} :
    ∀ (l : List UserRef) (ops : List Op),
    updateUsersLoop cur new mgr l = Except.ok ops →
    ops = l.filterMap (updateStepOp cur new mgr) := by
  intro l
  induction l with
  | nil =>
    intro ops h
    simp only [updateUsersLoop] at h
    injection h with h
    rw [← h]
    rfl
  | cons k rest ih =>
    intro ops h
    cases hstep : updateStepRes cur new mgr k with
    | error e =>
      simp only [updateUsersLoop, hstep] at h
      exact Except.noConfusion h
    | ok o =>
      cases o with
      | none =>
        simp only [updateUsersLoop, hstep] at h
        rw [List.filterMap_cons,
          show updateStepOp cur new mgr k = none from by simp [updateStepOp, hstep]]
        exact ih ops h
      | some op =>
        simp only [updateUsersLoop, hstep] at h
        cases hrec : updateUsersLoop cur new mgr rest with
        | error e =>
          rw [hrec] at h
          exact Except.noConfusion h
        | ok ops' =>
          rw [hrec] at h
          injection h with h
          rw [← h, List.filterMap_cons,
            show updateStepOp cur new mgr k = some op from by simp [updateStepOp, hstep]]
          rw [ih ops' hrec]

theorem updateStepRes_shape {cur new : ModelState} {mgr : List (String × Nat)}
    {k : UserRef} {op : Op}
    (h : updateStepRes cur new mgr k = Except.ok (some op)) :
    ∃ p, op = Op.updateUser k p := by
  cases h1 : lookupE cur.user_map k with
  | error e =>
    simp only [updateStepRes, h1] at h
    exact Except.noConfusion h
  | ok old_user =>
    cases h2 : lookupE cur.user_team_ids_map k with
    | error e =>
      simp only [updateStepRes, h1, h2] at h
      exact Except.noConfusion h
    | ok old_tids =>
      cases h3 : lookupE new.user_map k with
      | error e =>
        simp only [updateStepRes, h1, h2, h3] at h
        exact Except.noConfusion h
      | ok new_user =>
        cases h4 : lookupE new.user_team_ids_map k with
        | error e =>
          simp only [updateStepRes, h1, h2, h3, h4] at h
          exact Except.noConfusion h
        | ok new_tids =>
          cases h5 : getUpdates old_user new_user old_tids new_tids mgr with
          | error e =>
            simp only [updateStepRes, h1, h2, h3, h4, h5] at h
            exact Except.noConfusion h
          | ok upd =>
            cases upd with
            | none =>
              simp only [updateStepRes, h1, h2, h3, h4, h5] at h
              injection h with h
              exact Option.noConfusion h
            | some p =>
              simp only [updateStepRes, h1, h2, h3, h4, h5] at h
              by_cases h6 : truthy old_user.user_id = true
              · rw [if_pos h6] at h
                injection h with h
                injection h with h
                exact ⟨_, h.symm⟩
              · rw [if_neg h6] at h
                exact Except.noConfusion h

theorem updateStepOp_key {cur new : ModelState} {mgr : List (String × Nat)}
    {k : UserRef} {op : Op} (h : updateStepOp cur new mgr k = some op) :
    opUserKey op = some k := by
  unfold updateStepOp at h
  cases hres : updateStepRes cur new mgr k with
  | error e =>
    rw [hres] at h
    exact Option.noConfusion h
  | ok o =>
    rw [hres] at h
    cases o with
    | none => exact Option.noConfusion h
    | some op' =>
      injection h with h
      subst h
      rcases updateStepRes_shape hres with ⟨p, rfl⟩
      rfl

theorem updatesFor_filterMap_not_mem {cur new : ModelState}
    {mgr : List (String × Nat)} {k : UserRef} :
    ∀ (l : List UserRef), ¬ k ∈ l →
    updatesFor (l.filterMap (updateStepOp cur new mgr)) k = [] := by
  intro l
  induction l with
  | nil => intro _; rfl
  | cons k' rest ih =>
    intro hk
    rw [List.filterMap_cons]
    cases ho : updateStepOp cur new mgr k' with
    | none => exact ih (fun hm => hk (List.mem_cons_of_mem k' hm))
    | some op =>
      have hkey := updateStepOp_key ho
      unfold updatesFor
      rw [List.filter_cons]
      have hne : ¬ (opUserKey op = some k) := by
        rw [hkey]
        intro hc
        injection hc with hc
        exact hk (hc ▸ List.mem_cons_self k' rest)
      rw [if_neg (by simpa using hne)]
      exact ih (fun hm => hk (List.mem_cons_of_mem k' hm))

theorem updatesFor_filterMap {cur new : ModelState} {mgr : List (String × Nat)} :
    ∀ (l : List UserRef), l.Nodup → ∀ k : UserRef,
    updatesFor (l.filterMap (updateStepOp cur new mgr)) k =
      (if k ∈ l then
        (match updateStepOp cur new mgr k with
         | some op => [op]
         | none => [])
       else []) := by
  intro l
  induction l with
  | nil =>
    intro _ k
    simp [updatesFor]
  | cons k' rest ih =>
    intro hn k
    rcases List.nodup_cons.mp hn with ⟨hk'1, hk'2⟩
    rw [List.filterMap_cons]
    by_cases hk : k = k'
    · subst hk
      rw [if_pos (List.mem_cons_self k rest)]
      cases ho : updateStepOp cur new mgr k with
      | none =>
        rw [updatesFor_filterMap_not_mem rest hk'1]
      | some op =>
        have hkey := updateStepOp_key ho
        unfold updatesFor
        rw [List.filter_cons, if_pos (by simp [hkey])]
        have := @updatesFor_filterMap_not_mem cur new mgr k rest hk'1
        unfold updatesFor at this
        rw [this]
    · have hmem : (k ∈ k' :: rest) ↔ (k ∈ rest) := by
        simp [List.mem_cons, hk]
      rw [show (if k ∈ k' :: rest then
          (match updateStepOp cur new mgr k with
           | some op => [op]
           | none => []) else []) =
        (if k ∈ rest then
          (match updateStepOp cur new mgr k with
           | some op => [op]
           | none => []) else []) from by rw [if_congr hmem rfl rfl]]
      cases ho : updateStepOp cur new mgr k' with
      | none => exact ih hk'2 k
      | some op =>
        have hkey := updateStepOp_key ho
        unfold updatesFor
        rw [List.filter_cons]
        have hne : ¬ (opUserKey op = some k) := by
          rw [hkey]
          intro hc
          injection hc with hc
          exact hk hc.symm
        rw [if_neg (by simpa using hne)]
        have := ih hk'2 k
        unfold updatesFor at this
        rw [this]

end CxAC

/-! Claim C4. -/

/-- C4 counterexample: in the genuine-change scenario where only the email
differs between the current and desired user, exactly one update call is
emitted, but its payload also carries the unchanged `first_name` attribute
(with its current value `F`), so the payload does not contain only the
changed fields plus the user id. -/
theorem C4_counterexample :
    CxAC.updateUsers CxAC.exCurUpd CxAC.exNewUpd CxAC.exRoleTable =
      Except.ok [CxAC.Op.updateUser CxAC.exRef CxAC.exUpdPayload] ∧
    CxAC.dLookup CxAC.exUpdPayload.fields CxAC.Attr.first_name =
      some (CxAC.PVal.pstr "F") ∧
    CxAC.getAttr (CxAC.exUser (CxAC.PVal.pstr "u@x") CxAC.PVal.pnone (CxAC.PVal.pint 3))
      CxAC.Attr.first_name = CxAC.PVal.pstr "F" ∧
    CxAC.getAttr (CxAC.exUser (CxAC.PVal.pstr "new@x") CxAC.PVal.pnone CxAC.PVal.pnone)
      CxAC.Attr.first_name = CxAC.PVal.pstr "F" := by
  refine ⟨by decide, by decide, by decide, by decide⟩

/-- C4 (amended): for every user present in both models, when at least one
field, the role set or the team-id set differs, exactly one update call is
emitted for that user, and its payload carries an entry for every compared
attribute — the desired value for a changed attribute and the current
value for an unchanged one — together with the team-id set, the role ids
and the target user's opaque id; when nothing differs, no call is emitted.
(The original claim said the payload carries only the changed fields; the
code puts every compared attribute in the payload.) -/
theorem C4_update_payload_amended :
    (∀ u1 u2 : CxAC.User, (CxAC.diffFields u1 u2).1 =
      CxAC.comparedAttrs.map (fun e => (e.1,
        if CxAC.attrEqual (CxAC.getAttr u1 e.1) (CxAC.getAttr u2 e.1) e.2.1 = true
        then CxAC.getAttr u1 e.1 else CxAC.getAttr u2 e.1)))
    ∧ (∀ (u1 u2 : CxAC.User) (t1 t2 : Finset (Option Nat))
        (mgr : List (String × Nat)) (ids1 ids2 : List Nat),
        u1.username = u2.username →
        u1.authentication_provider_name = u2.authentication_provider_name →
        (CxAC.rolesList u1).mapM (CxAC.idFromName mgr) = Except.ok ids1 →
        (CxAC.rolesList u2).mapM (CxAC.idFromName mgr) = Except.ok ids2 →
        CxAC.getUpdates u1 u2 t1 t2 mgr =
          Except.ok (if CxAC.hasDiff u1 u2 t1 t2 = true
                     then some (CxAC.fullPayload u1 u2 t1 t2 ids1 ids2) else none))
    ∧ (∀ (cur new : CxAC.ModelState) (mgr : List (String × Nat))
        (l : List CxAC.UserRef) (ops : List CxAC.Op) (k : CxAC.UserRef),
        l.Nodup →
        CxAC.updateUsersLoop cur new mgr l = Except.ok ops →
        CxAC.updatesFor ops k =
          (if k ∈ l then
            (match CxAC.updateStepOp cur new mgr k with
             | some op => [op]
             | none => [])
           else []))
    ∧ (CxAC.updateUsers CxAC.exCurUpd CxAC.exNewUpd CxAC.exRoleTable =
        Except.ok [CxAC.Op.updateUser CxAC.exRef CxAC.exUpdPayload] ∧
       CxAC.exUpdPayload.user_id = CxAC.PVal.pint 3 ∧
       CxAC.updateUsers CxAC.exCurAgree CxAC.exNewAgree CxAC.exRoleTable =
        Except.ok []) := by
  refine ⟨CxAC.diffFields_fst, ?_, ?_, by decide, by decide, by decide⟩
  · intro u1 u2 t1 t2 mgr ids1 ids2 hu ha h1 h2
    exact CxAC.getUpdates_eq hu ha h1 h2
  · intro cur new mgr l ops k hn h
    rw [CxAC.updateUsersLoop_filterMap l ops h]
    exact CxAC.updatesFor_filterMap l hn k

/-- C4 witness: the per-user uniqueness part applied to the concrete
genuine-change scenario (one user, one update call). -/
theorem C4_update_payload_amended_witness :
    List.Nodup [CxAC.exRef] ∧
    CxAC.updateUsersLoop CxAC.exCurUpd CxAC.exNewUpd CxAC.exRoleTable [CxAC.exRef] =
      Except.ok [CxAC.Op.updateUser CxAC.exRef CxAC.exUpdPayload] ∧
    CxAC.updatesFor [CxAC.Op.updateUser CxAC.exRef CxAC.exUpdPayload] CxAC.exRef =
      (if CxAC.exRef ∈ [CxAC.exRef] then
        (match CxAC.updateStepOp CxAC.exCurUpd CxAC.exNewUpd CxAC.exRoleTable CxAC.exRef with
         | some op => [op]
         | none => [])
       else []) :=
  ⟨by decide, by decide,
   C4_update_payload_amended.2.2.1 CxAC.exCurUpd CxAC.exNewUpd CxAC.exRoleTable
     [CxAC.exRef] [CxAC.Op.updateUser CxAC.exRef CxAC.exUpdPayload] CxAC.exRef
     (by decide) (by decide)⟩

/-! Model-state lemmas for the idempotence claim. -/

namespace CxAC

theorem map_id_of_forall {α : Type} {l : List α} {f : α → α}
    (h : ∀ x ∈ l, f x = x) : l.map f = l := by
  conv_rhs => rw [← List.map_id l]
  exact List.map_congr_left h

theorem builtState_eq (ts : List Team) (us : List User) :
    builtState ts us =
      { teams := ts
        users := us
        team_map := keyFold (fun t => t.full_name) id ts []
        user_map := keyFold keyOf id us []
        user_team_ids_map := rebuildUtim ts } := by
  simp only [builtState, buildMaps, freshState, keyFoldErr_fst]

theorem teamMap_mem_dKeys {ts : List Team} {n : String} :
    n ∈ dKeys (keyFold (fun t => t.full_name) id ts ([] : List (String × Team))) ↔
      ∃ t ∈ ts, t.full_name = n := by
  rw [mem_dKeys_keyFold]
  simp [dKeys]

theorem userMap_mem_dKeys {us : List User} {k : UserRef} :
    k ∈ dKeys (keyFold keyOf id us ([] : List (UserRef × User))) ↔
      ∃ u ∈ us, keyOf u = k := by
  rw [mem_dKeys_keyFold]
  simp [dKeys]

theorem teamMap_entry {ts : List Team} {kv : String × Team}
    (h : kv ∈ keyFold (fun t => t.full_name) id ts ([] : List (String × Team))) :
    kv.2 ∈ ts ∧ kv.2.full_name = kv.1 := by
  rcases mem_entries_keyFold h with h | ⟨t, ht, hk, hv⟩
  · simp at h
  · simp only [id] at hv
    subst hv
    exact ⟨ht, hk⟩

theorem userMap_lookup {us : List User} {k : UserRef} {u : User}
    (h : dLookup (keyFold keyOf id us ([] : List (UserRef × User))) k = some u) :
    u ∈ us ∧ keyOf u = k := by
  have hmem := dLookup_mem h
  rcases mem_entries_keyFold hmem with h' | ⟨x, hx, hk, hv⟩
  · simp at h'
  · simp only [id] at hv
    subst hv
    exact ⟨hx, hk⟩

theorem lastWithName_spec {ts : List Team} {full : String} {o : Team}
    (h : lastWithName ts full = some o) : o ∈ ts ∧ o.full_name = full := by
  unfold lastWithName at h
  have hmem : o ∈ ts.filter (fun t => t.full_name = full) := by
    rcases List.mem_getLast?_eq_getLast h with ⟨hne, rfl⟩
    exact List.getLast_mem hne
  rcases List.mem_filter.mp hmem with ⟨h1, h2⟩
  exact ⟨h1, by simpa using h2⟩

theorem lastWithName_isSome {ts : List Team} {full : String}
    (h : ∃ t ∈ ts, t.full_name = full) : ∃ o, lastWithName ts full = some o := by
  rcases h with ⟨t, ht, hfn⟩
  unfold lastWithName
  have hne : ts.filter (fun t => t.full_name = full) ≠ [] :=
    List.ne_nil_of_mem (List.mem_filter.mpr ⟨ht, by simpa using hfn⟩)
  rcases Option.isSome_iff_exists.mp (List.getLast?_isSome.mpr hne) with ⟨o, ho⟩
  exact ⟨o, ho⟩

end CxAC

namespace CxAC

theorem updateTeamIds_self {tsC tsN : List Team} {usC usN : List User}
    (hTmem : ∀ n : String, (∃ t ∈ tsN, t.full_name = n) ↔ (∃ t ∈ tsC, t.full_name = n))
    (hTid : ∀ tN ∈ tsN, ∀ tC ∈ tsC, tN.full_name = tC.full_name →
      tN.team_id = tC.team_id) :
    updateTeamIds (builtState tsN usN) (builtState tsC usC) = builtState tsN usN := by
  rw [builtState_eq tsN usN, builtState_eq tsC usC]
  simp only [updateTeamIds]
  have hteams : tsN.map (fun t =>
      if (dLookup (keyFold (fun t => t.full_name) id tsN
            ([] : List (String × Team))) t.full_name).isSome then
        match lastWithName tsC t.full_name with
        | some o => { t with team_id := o.team_id }
        | none => t
      else t) = tsN := by
    apply map_id_of_forall
    intro t ht
    have hin : (dLookup (keyFold (fun t => t.full_name) id tsN
        ([] : List (String × Team))) t.full_name).isSome := by
      rw [← mem_dKeys]
      exact teamMap_mem_dKeys.mpr ⟨t, ht, rfl⟩
    rw [if_pos hin]
    rcases lastWithName_isSome ((hTmem t.full_name).mp ⟨t, ht, rfl⟩) with ⟨o, ho⟩
    rw [ho]
    rcases lastWithName_spec ho with ⟨hoC, hofn⟩
    show { t with team_id := o.team_id } = t
    rw [← hTid t ht o hoC hofn.symm]
  have hmap : (keyFold (fun t => t.full_name) id tsN
      ([] : List (String × Team))).map (fun kv =>
        match lastWithName tsC kv.1 with
        | some o => (kv.1, { kv.2 with team_id := o.team_id })
        | none => kv) =
      keyFold (fun t => t.full_name) id tsN ([] : List (String × Team)) := by
    apply map_id_of_forall
    intro kv hkv
    rcases teamMap_entry hkv with ⟨hmem, hfn⟩
    rcases lastWithName_isSome ((hTmem kv.1).mp ⟨kv.2, hmem, hfn⟩) with ⟨o, ho⟩
    rw [ho]
    rcases lastWithName_spec ho with ⟨hoC, hofn⟩
    show (kv.1, { kv.2 with team_id := o.team_id }) = kv
    rw [← hTid kv.2 hmem o hoC (by rw [hfn, hofn])]
  rw [hteams, hmap]

end CxAC

namespace CxAC

theorem addTeams_none {cur m : ModelState} {assign : String → Option Nat}
    (hsub : ∀ n ∈ dKeys m.team_map, n ∈ dKeys cur.team_map) :
    addTeams cur m assign =
      Except.ok ([], { m with user_team_ids_map := rebuildUtim m.teams }) := by
  simp only [addTeams]
  have hfilter : (dKeys m.team_map).filter
      (fun n => ¬ n ∈ dKeys cur.team_map) = [] :=
    List.filter_eq_nil_iff.mpr (fun n hn => by simp [hsub n hn])
  rw [hfilter]
  have hmapid : m.teams.map (fun t =>
      if t.full_name ∈ sortAsc ([] : List String) then
        { t with team_id := assign t.full_name }
      else t) = m.teams :=
    map_id_of_forall (fun t ht => by rw [if_neg (by simp [sortAsc])])
  trans (Except.ok (([] : List Op),
    { teams := m.teams.map (fun t =>
        if t.full_name ∈ sortAsc ([] : List String) then
          { t with team_id := assign t.full_name }
        else t)
      users := m.users
      team_map := m.team_map
      user_map := m.user_map
      user_team_ids_map := rebuildUtim (m.teams.map (fun t =>
        if t.full_name ∈ sortAsc ([] : List String) then
          { t with team_id := assign t.full_name }
        else t)) }) : Except String (List Op × ModelState))
  · rfl
  · rw [hmapid]

theorem addUsers_none {cur m : ModelState} {role_table apn_table : List (String × Nat)}
    (hsub : ∀ k ∈ dKeys m.user_map, k ∈ dKeys cur.user_map) :
    addUsers cur m role_table apn_table = Except.ok [] := by
  unfold addUsers
  rw [List.filter_eq_nil_iff.mpr (fun k hk => by simp [hsub k hk])]
  rfl

theorem deleteUsers_none {cur m : ModelState}
    (hsub : ∀ k ∈ dKeys cur.user_map, k ∈ dKeys m.user_map) :
    deleteUsers cur m = Except.ok [] := by
  unfold deleteUsers
  rw [List.filter_eq_nil_iff.mpr (fun k hk => by simp [hsub k hk])]
  rfl

theorem deleteTeams_none {cur m : ModelState}
    (hsub : ∀ n ∈ dKeys cur.team_map, n ∈ dKeys m.team_map) :
    deleteTeams cur m = [] := by
  unfold deleteTeams
  rw [List.filter_eq_nil_iff.mpr (fun n hn => by simp [hsub n hn])]
  rfl

theorem updateUsersLoop_none {cur m : ModelState} {mgr : List (String × Nat)} :
    ∀ l : List UserRef, (∀ k ∈ l, updateStepRes cur m mgr k = Except.ok none) →
    updateUsersLoop cur m mgr l = Except.ok [] := by
  intro l
  induction l with
  | nil => intro _; rfl
  | cons k rest ih =>
    intro h
    simp only [updateUsersLoop, h k (List.mem_cons_self k rest)]
    exact ih (fun k' hk' => h k' (List.mem_cons_of_mem k hk'))

theorem updateUsers_none {cur m : ModelState} {mgr : List (String × Nat)}
    (h : ∀ k, k ∈ dKeys m.user_map → k ∈ dKeys cur.user_map →
      updateStepRes cur m mgr k = Except.ok none) :
    updateUsers cur m mgr = Except.ok [] := by
  unfold updateUsers
  apply updateUsersLoop_none
  intro k hk
  rcases List.mem_filter.mp hk with ⟨h1, h2⟩
  exact h k h1 (by simpa using h2)

end CxAC

namespace CxAC

theorem getUpdates_none_of_agree {u1 u2 : User} {tids : Finset (Option Nat)}
    {mgr : List (String × Nat)} {ids : List Nat}
    (hagree : ∀ a : Attr, getAttr u1 a = getAttr u2 a)
    (hids : (rolesList u1).mapM (idFromName mgr) = Except.ok ids) :
    getUpdates u1 u2 tids tids mgr = Except.ok none := by
  have hu : u1.username = u2.username := hagree Attr.username
  have ha : u1.authentication_provider_name = u2.authentication_provider_name :=
    hagree Attr.authentication_provider_name
  have hr : u1.roles = u2.roles := hagree Attr.roles
  have hrl : rolesList u2 = rolesList u1 := by
    simp only [rolesList, hr]
  have h2 : (rolesList u2).mapM (idFromName mgr) = Except.ok ids := by
    rw [hrl]
    exact hids
  rw [getUpdates_eq hu ha hids h2]
  have hany : (comparedAttrs.any fun e =>
      !attrEqual (getAttr u1 e.1) (getAttr u2 e.1) e.2.1) = false := by
    rw [List.any_eq_false]
    intro e _
    rw [hagree e.1, attrEqual_self]
    simp
  have hd : hasDiff u1 u2 tids tids = false := by
    simp [hasDiff, diffFields_snd, hr, hany]
  rw [hd]
  simp

theorem applyChanges_eq_phases {cur new : ModelState}
    {role_table apn_table : List (String × Nat)} {assign : String → Option Nat}
    {st : ModelState} {opsB opsC opsD : List Op}
    (h1 : addTeams cur (updateTeamIds new cur) assign = Except.ok ([], st))
    (h2 : addUsers cur st role_table apn_table = Except.ok opsB)
    (h3 : updateUsers cur st role_table = Except.ok opsC)
    (h4 : deleteUsers cur st = Except.ok opsD) :
    applyChanges cur new role_table apn_table assign =
      Except.ok (([] : List Op) ++ opsB ++ opsC ++ opsD ++ deleteTeams cur st) := by
  simp only [applyChanges, h1, h2, h3, h4]

end CxAC

/-! Claim C6. -/

/-- C6: the reconciliation is idempotent — for every pair of freshly built
models that already agree (same team full-name set with the same team ids,
same user identity set, every shared user equal on all declared
attributes, and the same team-id set per user), provided every current
user belongs to at least one team and has resolvable roles,
`apply_changes` issues no create, update or delete call at all. -/
theorem C6_idempotent :
    ∀ (tsC tsN : List CxAC.Team) (usC usN : List CxAC.User)
      (role_table apn_table : List (String × Nat)) (assign : String → Option Nat),
    (∀ n : String, (∃ t ∈ tsN, t.full_name = n) ↔ (∃ t ∈ tsC, t.full_name = n)) →
    (∀ tN ∈ tsN, ∀ tC ∈ tsC, tN.full_name = tC.full_name → tN.team_id = tC.team_id) →
    (∀ k : CxAC.UserRef, (∃ u ∈ usN, CxAC.keyOf u = k) ↔ (∃ u ∈ usC, CxAC.keyOf u = k)) →
    (∀ uN ∈ usN, ∀ uC ∈ usC, CxAC.keyOf uN = CxAC.keyOf uC →
      ∀ a : CxAC.Attr, CxAC.getAttr uN a = CxAC.getAttr uC a) →
    (∀ k : CxAC.UserRef, CxAC.dLookup (CxAC.rebuildUtim tsN) k =
      CxAC.dLookup (CxAC.rebuildUtim tsC) k) →
    (∀ u ∈ usC, (CxAC.dLookup (CxAC.rebuildUtim tsC) (CxAC.keyOf u)).isSome) →
    (∀ u ∈ usC, ∃ ids, (CxAC.rolesList u).mapM (CxAC.idFromName role_table) =
      Except.ok ids) →
    CxAC.applyChanges (CxAC.builtState tsC usC) (CxAC.builtState tsN usN)
      role_table apn_table assign = Except.ok [] := by
  intro tsC tsN usC usN role_table apn_table assign hTmem hTid hUmem hUagree hUtim
    hOrphan hRoles
  have hTsub : ∀ n ∈ CxAC.dKeys (CxAC.builtState tsN usN).team_map,
      n ∈ CxAC.dKeys (CxAC.builtState tsC usC).team_map := by
    intro n hn
    rw [CxAC.builtState_eq] at hn ⊢
    exact CxAC.teamMap_mem_dKeys.mpr ((hTmem n).mp (CxAC.teamMap_mem_dKeys.mp hn))
  have hTsub2 : ∀ n ∈ CxAC.dKeys (CxAC.builtState tsC usC).team_map,
      n ∈ CxAC.dKeys (CxAC.builtState tsN usN).team_map := by
    intro n hn
    rw [CxAC.builtState_eq] at hn ⊢
    exact CxAC.teamMap_mem_dKeys.mpr ((hTmem n).mpr (CxAC.teamMap_mem_dKeys.mp hn))
  have hUsub : ∀ k ∈ CxAC.dKeys (CxAC.builtState tsN usN).user_map,
      k ∈ CxAC.dKeys (CxAC.builtState tsC usC).user_map := by
    intro k hk
    rw [CxAC.builtState_eq] at hk ⊢
    exact CxAC.userMap_mem_dKeys.mpr ((hUmem k).mp (CxAC.userMap_mem_dKeys.mp hk))
  have hUsub2 : ∀ k ∈ CxAC.dKeys (CxAC.builtState tsC usC).user_map,
      k ∈ CxAC.dKeys (CxAC.builtState tsN usN).user_map := by
    intro k hk
    rw [CxAC.builtState_eq] at hk ⊢
    exact CxAC.userMap_mem_dKeys.mpr ((hUmem k).mpr (CxAC.userMap_mem_dKeys.mp hk))
  have hstate : ({ CxAC.builtState tsN usN with
      user_team_ids_map := CxAC.rebuildUtim (CxAC.builtState tsN usN).teams }) =
      CxAC.builtState tsN usN := by
    rw [CxAC.builtState_eq]
  have h1 : CxAC.addTeams (CxAC.builtState tsC usC)
      (CxAC.updateTeamIds (CxAC.builtState tsN usN) (CxAC.builtState tsC usC)) assign =
      Except.ok ([], CxAC.builtState tsN usN) := by
    rw [CxAC.updateTeamIds_self hTmem hTid, CxAC.addTeams_none hTsub, hstate]
  have h2 : CxAC.addUsers (CxAC.builtState tsC usC) (CxAC.builtState tsN usN)
      role_table apn_table = Except.ok [] := CxAC.addUsers_none hUsub
  have h3 : CxAC.updateUsers (CxAC.builtState tsC usC) (CxAC.builtState tsN usN)
      role_table = Except.ok [] := by
    apply CxAC.updateUsers_none
    intro k hkN hkC
    rw [CxAC.builtState_eq tsN usN] at hkN
    rw [CxAC.builtState_eq tsC usC] at hkC
    obtain ⟨uC, huCl⟩ := Option.isSome_iff_exists.mp (CxAC.mem_dKeys.mp hkC)
    obtain ⟨huCmem, hkeyC⟩ := CxAC.userMap_lookup huCl
    obtain ⟨uN, huNl⟩ := Option.isSome_iff_exists.mp (CxAC.mem_dKeys.mp hkN)
    obtain ⟨huNmem, hkeyN⟩ := CxAC.userMap_lookup huNl
    obtain ⟨sC, hsC⟩ := Option.isSome_iff_exists.mp (hOrphan uC huCmem)
    have hsCk : CxAC.dLookup (CxAC.rebuildUtim tsC) k = some sC := by
      rw [← hkeyC]
      exact hsC
    have htimN : CxAC.dLookup (CxAC.rebuildUtim tsN) k = some sC := by
      rw [hUtim k]
      exact hsCk
    obtain ⟨ids, hids⟩ := hRoles uC huCmem
    have hagree : ∀ a : CxAC.Attr, CxAC.getAttr uC a = CxAC.getAttr uN a :=
      fun a => (hUagree uN huNmem uC huCmem (by rw [hkeyN, hkeyC]) a).symm
    have hgu : CxAC.getUpdates uC uN sC sC role_table = Except.ok none :=
      CxAC.getUpdates_none_of_agree hagree hids
    simp only [CxAC.updateStepRes, CxAC.builtState_eq, CxAC.lookupE, huCl, huNl,
      hsCk, htimN, hgu]
  have h4 : CxAC.deleteUsers (CxAC.builtState tsC usC) (CxAC.builtState tsN usN) =
      Except.ok [] := CxAC.deleteUsers_none hUsub2
  rw [CxAC.applyChanges_eq_phases h1 h2 h3 h4,
    CxAC.deleteTeams_none hTsub2]
  rfl

/-- C6 witness: idempotence at a concrete pair of agreeing models (one
team, one user; the desired copy lacks the remotely assigned user id). -/
theorem C6_idempotent_witness :
    CxAC.applyChanges
      (CxAC.builtState [CxAC.exTeamWithUser]
        [CxAC.exUser (CxAC.PVal.pstr "u@x") CxAC.PVal.pnone (CxAC.PVal.pint 3)])
      (CxAC.builtState [CxAC.exTeamWithUser]
        [CxAC.exUser (CxAC.PVal.pstr "u@x") CxAC.PVal.pnone CxAC.PVal.pnone])
      CxAC.exRoleTable CxAC.exApnTable (fun _ => none) = Except.ok [] :=
  C6_idempotent [CxAC.exTeamWithUser] [CxAC.exTeamWithUser]
    [CxAC.exUser (CxAC.PVal.pstr "u@x") CxAC.PVal.pnone (CxAC.PVal.pint 3)]
    [CxAC.exUser (CxAC.PVal.pstr "u@x") CxAC.PVal.pnone CxAC.PVal.pnone]
    CxAC.exRoleTable CxAC.exApnTable (fun _ => none)
    (fun _ => Iff.rfl)
    (by decide)
    (by
      intro k
      constructor
      · intro hk
        rcases hk with ⟨u, hu, hk⟩
        rw [List.mem_singleton] at hu
        subst hu
        exact ⟨_, List.mem_singleton.mpr rfl, by rw [← hk]; decide⟩
      · intro hk
        rcases hk with ⟨u, hu, hk⟩
        rw [List.mem_singleton] at hu
        subst hu
        exact ⟨_, List.mem_singleton.mpr rfl, by rw [← hk]; decide⟩)
    (by
      intro uN hN uC hC _ a
      rw [List.mem_singleton] at hN hC
      subst hN
      subst hC
      cases a <;> rfl)
    (fun _ => rfl)
    (by decide)
    (by
      intro u hu
      rw [List.mem_singleton] at hu
      subst hu
      exact ⟨[1], by decide⟩)

/-! Repeated-validation lemmas. -/

namespace CxAC

theorem mem_foldl_step {α E : Type} (step : List E → α → List E) (f : α → List E)
    (hstep : ∀ es x, step es x = es ++ f x) :
    ∀ (l : List α) (es0 : List E) (e : E),
    e ∈ l.foldl step es0 → e ∈ es0 ∨ ∃ x ∈ l, e ∈ f x := by
  intro l
  induction l with
  | nil =>
    intro es0 e he
    exact Or.inl he
  | cons x xs ih =>
    intro es0 e he
    rw [List.foldl_cons, hstep] at he
    rcases ih (es0 ++ f x) e he with h | ⟨y, hy, hey⟩
    · rcases List.mem_append.mp h with h | h
      · exact Or.inl h
      · exact Or.inr ⟨x, List.mem_cons_self x xs, h⟩
    · exact Or.inr ⟨y, List.mem_cons_of_mem x hy, hey⟩

theorem userValidate_shape {u : User} {apn_table role_table : List (String × Nat)} :
    ∀ e ∈ userValidate u apn_table role_table, isDupErr e = false := by
  intro e he
  unfold userValidate at he
  rcases List.mem_append.mp he with he | he
  · rcases List.mem_append.mp he with he | he
    · rcases List.mem_filterMap.mp he with ⟨x, _, hfx⟩
      by_cases hc : x.2.2 = true ∧ getAttr u x.1 = PVal.pnone
      · rw [if_pos hc] at hfx
        injection hfx with hfx
        rw [← hfx]
        rfl
      · rw [if_neg hc] at hfx
        exact Option.noConfusion hfx
    · by_cases hc : validName apn_table u.authentication_provider_name = true
      · rw [if_pos hc] at he
        simp at he
      · rw [if_neg hc] at he
        rw [List.mem_singleton.mp he]
        rfl
  · rcases List.mem_filterMap.mp he with ⟨r, _, hfr⟩
    by_cases hc : validName role_table (PVal.pstr r) = true
    · rw [if_pos hc] at hfr
      exact Option.noConfusion hfr
    · rw [if_neg hc] at hfr
      injection hfr with hfr
      rw [← hfr]
      rfl

theorem validateUsers_shape {m : ModelState} {apn_table role_table : List (String × Nat)} :
    ∀ e ∈ validateUsers m apn_table role_table, isDupErr e = false := by
  intro e he
  unfold validateUsers at he
  have := mem_foldl_step _
    (fun u => userValidate u apn_table role_table ++
      (if (dLookup m.user_team_ids_map (keyOf u)).isSome then []
       else [Err.noTeam u.username u.authentication_provider_name]))
    (fun es u => by rw [List.append_assoc]) m.users [] e he
  rcases this with h | ⟨u, _, hu⟩
  · simp at h
  · rcases List.mem_append.mp hu with hu | hu
    · exact userValidate_shape e hu
    · by_cases hc : (dLookup m.user_team_ids_map (keyOf u)).isSome = true
      · rw [if_pos hc] at hu
        simp at hu
      · rw [if_neg hc] at hu
        rw [List.mem_singleton.mp hu]
        rfl

theorem validateTeams_shape {m : ModelState} :
    ∀ e ∈ validateTeams m, isDupErr e = false := by
  intro e he
  unfold validateTeams at he
  have := mem_foldl_step _
    (fun t => t.users.filterMap (fun ref =>
      if usersContains m.users ref then none else some (Err.missingUser ref)))
    (fun es t => rfl) m.teams [] e he
  rcases this with h | ⟨t, _, ht⟩
  · simp at h
  · rcases List.mem_filterMap.mp ht with ⟨ref, _, hfr⟩
    by_cases hc : usersContains m.users ref = true
    · rw [if_pos hc] at hfr
      exact Option.noConfusion hfr
    · rw [if_neg hc] at hfr
      injection hfr with hfr
      rw [← hfr]
      rfl

theorem buildMaps_fresh_errors {ts : List Team} {us : List User}
    (hTn : (ts.map (fun t => t.full_name)).Nodup)
    (hUn : (us.map keyOf).Nodup) :
    (buildMaps (freshState ts us) []).2 = [] := by
  simp only [buildMaps, freshState]
  rw [keyFoldErr_clean hUn]
  · exact keyFoldErr_clean hTn (by intro x _; simp [dLookup])
  · intro x _
    simp [dLookup]

theorem buildMaps_again {ts : List Team} {us : List User}
    (hTn : (ts.map (fun t => t.full_name)).Nodup)
    (hUn : (us.map keyOf).Nodup) :
    buildMaps (builtState ts us) [] =
      (builtState ts us,
       ts.map (fun t => Err.duplicateTeam t.full_name) ++
         us.map (fun u => Err.duplicateUser (keyOf u))) := by
  rw [builtState_eq]
  simp only [buildMaps]
  rw [keyFoldErr_alldup (keyFold_nodupKeys (by simp))
    (fun t ht => keyFold_lookup_self hTn ht [])]
  rw [keyFoldErr_alldup (keyFold_nodupKeys (by simp))
    (fun u hu => keyFold_lookup_self hUn hu [])]
  simp

theorem validateModel_fresh {ts : List Team} {us : List User}
    {apn_table role_table : List (String × Nat)}
    (hTn : (ts.map (fun t => t.full_name)).Nodup)
    (hUn : (us.map keyOf).Nodup) :
    validateModel (freshState ts us) apn_table role_table =
      (builtState ts us,
       validateUsers (builtState ts us) apn_table role_table ++
         validateTeams (builtState ts us)) := by
  simp only [validateModel]
  rw [show (buildMaps (freshState ts us) []).1 = builtState ts us from rfl,
    buildMaps_fresh_errors hTn hUn]
  simp

theorem validateModel_again {ts : List Team} {us : List User}
    {apn_table role_table : List (String × Nat)}
    (hTn : (ts.map (fun t => t.full_name)).Nodup)
    (hUn : (us.map keyOf).Nodup) :
    validateModel (builtState ts us) apn_table role_table =
      (builtState ts us,
       (ts.map (fun t => Err.duplicateTeam t.full_name) ++
          us.map (fun u => Err.duplicateUser (keyOf u))) ++
         (validateUsers (builtState ts us) apn_table role_table ++
           validateTeams (builtState ts us))) := by
  simp only [validateModel]
  rw [buildMaps_again hTn hUn]
  simp

end CxAC

/-! Claim C10. -/

/-- C10 counterexample: validating a freshly loaded one-team one-user model
yields no errors, but validating the same (mutated) model instance a
second time yields a `DuplicateTeam` and a `DuplicateUser` error, because
`build_maps` extends the already populated `team_map` and `user_map`
instead of rebuilding them from scratch. -/
theorem C10_counterexample :
    (CxAC.validateModel CxAC.exValModel CxAC.exApnTable CxAC.exRoleTable).2 = [] ∧
    (CxAC.validateModel
      (CxAC.validateModel CxAC.exValModel CxAC.exApnTable CxAC.exRoleTable).1
      CxAC.exApnTable CxAC.exRoleTable).2 =
      [CxAC.Err.duplicateTeam "A", CxAC.Err.duplicateUser CxAC.exRef] := by
  refine ⟨by decide, by decide⟩

/-- C10 (amended): of the three derived indexes only `user_team_ids_map` is
rebuilt from scratch; `team_map` and `user_map` are extended in place, so
repeated validation is not stable.  For a model with no duplicate team full
names and no duplicate user identities, the first validation reports no
`DuplicateTeam`/`DuplicateUser` error, but a second validation of the same
model instance reports every team as a `DuplicateTeam` and every user as a
`DuplicateUser`, prepended to the (otherwise identical) error list of the
first validation. -/
theorem C10_revalidation_amended :
    ∀ (ts : List CxAC.Team) (us : List CxAC.User)
      (apn_table role_table : List (String × Nat)),
    (ts.map (fun t => t.full_name)).Nodup →
    (us.map CxAC.keyOf).Nodup →
    (∀ e ∈ (CxAC.validateModel (CxAC.freshState ts us) apn_table role_table).2,
      CxAC.isDupErr e = false)
    ∧ (CxAC.validateModel
        (CxAC.validateModel (CxAC.freshState ts us) apn_table role_table).1
        apn_table role_table).2 =
      (ts.map (fun t => CxAC.Err.duplicateTeam t.full_name) ++
        us.map (fun u => CxAC.Err.duplicateUser (CxAC.keyOf u))) ++
      (CxAC.validateModel (CxAC.freshState ts us) apn_table role_table).2 := by
  intro ts us apn_table role_table hTn hUn
  rw [CxAC.validateModel_fresh hTn hUn]
  constructor
  · intro e he
    rcases List.mem_append.mp he with he | he
    · exact CxAC.validateUsers_shape e he
    · exact CxAC.validateTeams_shape e he
  · rw [CxAC.validateModel_again hTn hUn]

/-- C10 witness: the amended repeated-validation behaviour at the concrete
one-team one-user model. -/
theorem C10_revalidation_amended_witness :
    (([CxAC.exTeamWithUser].map (fun t => t.full_name)).Nodup ∧
     ([CxAC.exUser (CxAC.PVal.pstr "u@x") CxAC.PVal.pnone (CxAC.PVal.pint 3)].map
        CxAC.keyOf).Nodup) ∧
    ((∀ e ∈ (CxAC.validateModel
        (CxAC.freshState [CxAC.exTeamWithUser]
          [CxAC.exUser (CxAC.PVal.pstr "u@x") CxAC.PVal.pnone (CxAC.PVal.pint 3)])
        CxAC.exApnTable CxAC.exRoleTable).2, CxAC.isDupErr e = false)
     ∧ (CxAC.validateModel
          (CxAC.validateModel
            (CxAC.freshState [CxAC.exTeamWithUser]
              [CxAC.exUser (CxAC.PVal.pstr "u@x") CxAC.PVal.pnone (CxAC.PVal.pint 3)])
            CxAC.exApnTable CxAC.exRoleTable).1
          CxAC.exApnTable CxAC.exRoleTable).2 =
        ([CxAC.exTeamWithUser].map (fun t => CxAC.Err.duplicateTeam t.full_name) ++
          [CxAC.exUser (CxAC.PVal.pstr "u@x") CxAC.PVal.pnone (CxAC.PVal.pint 3)].map
            (fun u => CxAC.Err.duplicateUser (CxAC.keyOf u))) ++
        (CxAC.validateModel
          (CxAC.freshState [CxAC.exTeamWithUser]
            [CxAC.exUser (CxAC.PVal.pstr "u@x") CxAC.PVal.pnone (CxAC.PVal.pint 3)])
          CxAC.exApnTable CxAC.exRoleTable).2) :=
  ⟨⟨by decide, by decide⟩,
   C10_revalidation_amended [CxAC.exTeamWithUser]
     [CxAC.exUser (CxAC.PVal.pstr "u@x") CxAC.PVal.pnone (CxAC.PVal.pint 3)]
     CxAC.exApnTable CxAC.exRoleTable (by decide) (by decide)⟩

/-! Denormalization lemmas. -/

namespace CxAC

theorem fillStep_lookup_ne {d : List (Attr × PVal)} {a b : Attr} {present : Bool}
    {dflts : Defaults} (h : b ≠ a) :
    dLookup (fillStep d a present dflts) b = dLookup d b := by
  unfold fillStep
  by_cases hc : (dLookup d a).isNone ∧ present = true
  · rw [if_pos hc]
    exact dLookup_dInsert_ne h
  · rw [if_neg hc]

theorem fillStep_notpresent {d : List (Attr × PVal)} {a : Attr} {dflts : Defaults} :
    fillStep d a false dflts = d := by
  unfold fillStep
  rw [if_neg (by simp)]

theorem fromDict_ok_locale {d : List (Attr × PVal)} {dflts : Defaults} {u : User}
    (h : fromDict d dflts = Except.ok u)
    (hd : dLookup d Attr.locale_id = none)
    (hdef : dflts.default_locale_id = none) :
    getAttr u Attr.locale_id = PVal.pnone := by
  have hlk : dLookup (denormFill d dflts) Attr.locale_id = none := by
    unfold denormFill
    rw [fillStep_lookup_ne (by decide),
      show dflts.default_locale_id.isSome = false from by rw [hdef]; rfl,
      fillStep_notpresent,
      fillStep_lookup_ne (by decide),
      fillStep_lookup_ne (by decide)]
    exact hd
  cases h1 : dLookup (denormFill d dflts) Attr.username with
  | none =>
    simp only [fromDict, h1] at h
    exact Except.noConfusion h
  | some uv =>
    cases h2 : dLookup (denormFill d dflts) Attr.authentication_provider_name with
    | none =>
      simp only [fromDict, h1, h2] at h
      exact Except.noConfusion h
    | some av =>
      simp only [fromDict, h1, h2, Except.ok.injEq] at h
      rw [← h]
      show (dLookup (denormFill d dflts) Attr.locale_id).getD PVal.pnone = PVal.pnone
      rw [hlk]
      rfl

end CxAC

/-! Claim C9. -/

/-- C9 counterexample: denormalizing a user record lacking the mandatory
`locale_id` attribute, with no default for it, leaves the attribute `None`
and later validation yields a `MissingUserProperty` record naming only the
user and the attribute — not a `MissingDefaultAttribute` naming user, team
and attribute (no such error record exists in the code, and no validation
record carries a team here). -/
theorem C9_counterexample :
    CxAC.fromDict CxAC.exDictNoLocale CxAC.exNoDefaults =
      Except.ok CxAC.exUserNoLocale ∧
    CxAC.getAttr CxAC.exUserNoLocale CxAC.Attr.locale_id = CxAC.PVal.pnone ∧
    CxAC.userValidate CxAC.exUserNoLocale CxAC.exApnTable CxAC.exRoleTable =
      [CxAC.Err.missingUserProperty (CxAC.PVal.pstr "u") CxAC.Attr.locale_id] := by
  refine ⟨by decide, by decide, by decide⟩

/-- C9 (amended): a user record lacking a mandatory attribute for which no
default exists is denormalized with that attribute left `None` (shown here
for `locale_id`), and validation then yields a `MissingUserProperty`
failure naming the user and the attribute, rather than silently accepting
the record; the code has no `MissingDefaultAttribute` record and the
failure does not name the team. -/
theorem C9_missing_mandatory_amended :
    (∀ (d : List (CxAC.Attr × CxAC.PVal)) (dflts : CxAC.Defaults) (u : CxAC.User)
        (apn_table role_table : List (String × Nat)),
        CxAC.fromDict d dflts = Except.ok u →
        ∀ e ∈ CxAC.userAttrs, e.2.2 = true → CxAC.getAttr u e.1 = CxAC.PVal.pnone →
        CxAC.Err.missingUserProperty u.username e.1 ∈
          CxAC.userValidate u apn_table role_table)
    ∧ (∀ (d : List (CxAC.Attr × CxAC.PVal)) (dflts : CxAC.Defaults) (u : CxAC.User),
        CxAC.fromDict d dflts = Except.ok u →
        CxAC.dLookup d CxAC.Attr.locale_id = none →
        dflts.default_locale_id = none →
        CxAC.getAttr u CxAC.Attr.locale_id = CxAC.PVal.pnone) := by
  constructor
  · intro d dflts u apn_table role_table _ e he hm hp
    unfold CxAC.userValidate
    apply List.mem_append.mpr
    left
    apply List.mem_append.mpr
    left
    exact List.mem_filterMap.mpr ⟨e, he, by rw [if_pos ⟨hm, hp⟩]⟩
  · intro d dflts u h hd hdef
    exact CxAC.fromDict_ok_locale h hd hdef

/-- C9 witness: the amended missing-mandatory behaviour at the concrete
record lacking `locale_id`. -/
theorem C9_missing_mandatory_amended_witness :
    (CxAC.fromDict CxAC.exDictNoLocale CxAC.exNoDefaults =
      Except.ok CxAC.exUserNoLocale ∧
     (CxAC.Attr.locale_id, CxAC.PType.tint, true) ∈ CxAC.userAttrs ∧
     CxAC.getAttr CxAC.exUserNoLocale CxAC.Attr.locale_id = CxAC.PVal.pnone) ∧
    CxAC.Err.missingUserProperty CxAC.exUserNoLocale.username CxAC.Attr.locale_id ∈
      CxAC.userValidate CxAC.exUserNoLocale CxAC.exApnTable CxAC.exRoleTable :=
  ⟨⟨by decide, by decide, by decide⟩,
   C9_missing_mandatory_amended.1 CxAC.exDictNoLocale CxAC.exNoDefaults
     CxAC.exUserNoLocale CxAC.exApnTable CxAC.exRoleTable (by decide)
     (CxAC.Attr.locale_id, CxAC.PType.tint, true) (by decide) (by decide) (by decide)⟩

/-! Cross-team user validation lemmas. -/

namespace Ptum

open CxAC

theorem filter_isInconsistent_validateRolesP (mgr : List (String × Nat))
    (tfn : String) (u : PUser) :
    (validateRolesP mgr tfn u).filter isInconsistent = [] := by
  apply List.filter_eq_nil_iff.mpr
  intro e he
  rcases List.mem_filterMap.mp he with ⟨r, _, hr⟩
  split at hr
  · exact Option.noConfusion hr
  · injection hr with hr
    rw [← hr]
    simp [isInconsistent]

theorem filter_isInconsistent_defaultErrs (mgr : List (String × Nat)) (t : PTeam) :
    (t.default_roles.filterMap (fun r =>
      if validRole mgr r then none
      else some (PErr.invalidDefaultRole t.full_name r))).filter isInconsistent = [] := by
  apply List.filter_eq_nil_iff.mpr
  intro e he
  rcases List.mem_filterMap.mp he with ⟨r, _, hr⟩
  split at hr
  · exact Option.noConfusion hr
  · injection hr with hr
    rw [← hr]
    simp [isInconsistent]

theorem mkPModel_two_team_map {t1 t2 : PTeam} (hne : t1.full_name ≠ t2.full_name) :
    (mkPModel [t1, t2]).team_map = [(t1.full_name, t1), (t2.full_name, t2)] := by
  show dInsert (dInsert [] t1.full_name t1) t2.full_name t2 = _
  simp [dInsert, dLookup, hne]

theorem mkPModel_two_user_map {t1 t2 : PTeam} {u1 u2 : PUser}
    (hu1 : t1.users = [u1]) (hu2 : t2.users = [u2])
    (hun : u2.username = u1.username) (hne : t1.full_name ≠ t2.full_name) :
    (mkPModel [t1, t2]).user_map =
      [(u1.username, [(t1.full_name, u1), (t2.full_name, u2)])] := by
  have hstep : (mkPModel [t1, t2]).user_map =
      t2.users.foldl
        (fun um u =>
          dInsert um u.username (dInsert ((dLookup um u.username).getD []) t2.full_name u))
        (t1.users.foldl
          (fun um u =>
            dInsert um u.username (dInsert ((dLookup um u.username).getD []) t1.full_name u))
          []) := rfl
  rw [hstep, hu1, hu2]
  simp [List.foldl, dInsert, dLookup, hun, hne]

theorem teamOf_mkPModel_fst {t1 t2 : PTeam} (hne : t1.full_name ≠ t2.full_name) :
    teamOf (mkPModel [t1, t2]) t1.full_name = t1 := by
  unfold teamOf
  rw [mkPModel_two_team_map hne]
  simp [dLookup]

theorem teamOf_mkPModel_snd {t1 t2 : PTeam} (hne : t1.full_name ≠ t2.full_name) :
    teamOf (mkPModel [t1, t2]) t2.full_name = t2 := by
  unfold teamOf
  rw [mkPModel_two_team_map hne]
  simp [dLookup, hne]

end Ptum

/-! Claim C7. -/

/-- C7 counterexample: a model where one user identity is referenced by two
teams whose email AND effective role sets both differ yields TWO
`InconsistentUser` records (one per divergent field), not exactly one. -/
theorem C7_counterexample :
    (Ptum.validateP Ptum.exBothDiffer CxAC.exRoleTable).filter Ptum.isInconsistent =
      [Ptum.PErr.inconsistentUser "email" "u" "T1" "T2"
        (CxAC.PVal.pstr "u@x") (CxAC.PVal.pstr "other@x"),
       Ptum.PErr.inconsistentUser "roles" "u" "T1" "T2"
        (CxAC.PVal.pset ["Admin"]) (CxAC.PVal.pset ["Reviewer"])] ∧
    ((Ptum.validateP Ptum.exBothDiffer CxAC.exRoleTable).filter Ptum.isInconsistent).length
      = 2 := by
  refine ⟨by decide, by decide⟩

/-- C7 (amended): for a model of two teams with distinct full names each
owning one record of the same user identity, validation yields exactly one
`InconsistentUser` record per divergent cross-team field — one for the
email when the emails differ, and one for the effective role set (the
user's own roles if non-empty, else the owning team's default roles) when
those differ — each naming both teams and both conflicting values; so a
single divergent field yields exactly one record, but when both email and
effective roles diverge, two records are produced. -/
theorem C7_inconsistent_user_amended :
    ∀ (t1 t2 : Ptum.PTeam) (u1 u2 : Ptum.PUser) (mgr : List (String × Nat)),
    t1.users = [u1] → t2.users = [u2] → u2.username = u1.username →
    t1.full_name ≠ t2.full_name →
    ((Ptum.validateP (Ptum.mkPModel [t1, t2]) mgr).filter Ptum.isInconsistent =
      (if u2.email ≠ u1.email then
        [Ptum.PErr.inconsistentUser "email" u1.username t1.full_name t2.full_name
          u1.email u2.email]
      else [])
      ++ (if Ptum.getUserRoles u1 t1 ≠ Ptum.getUserRoles u2 t2 then
        [Ptum.PErr.inconsistentUser "roles" u1.username t1.full_name t2.full_name
          (CxAC.PVal.pset (Ptum.getUserRoles u1 t1))
          (CxAC.PVal.pset (Ptum.getUserRoles u2 t2))]
      else []))
    ∧ (u2.email = u1.email → Ptum.getUserRoles u1 t1 ≠ Ptum.getUserRoles u2 t2 →
      (Ptum.validateP (Ptum.mkPModel [t1, t2]) mgr).filter Ptum.isInconsistent =
        [Ptum.PErr.inconsistentUser "roles" u1.username t1.full_name t2.full_name
          (CxAC.PVal.pset (Ptum.getUserRoles u1 t1))
          (CxAC.PVal.pset (Ptum.getUserRoles u2 t2))]) := by
  intro t1 t2 u1 u2 mgr hu1 hu2 hun hne
  have hval : Ptum.validateP (Ptum.mkPModel [t1, t2]) mgr =
      (([] ++ t1.default_roles.filterMap (fun r =>
          if Ptum.validRole mgr r then none
          else some (Ptum.PErr.invalidDefaultRole t1.full_name r)))
        ++ t2.default_roles.filterMap (fun r =>
          if Ptum.validRole mgr r then none
          else some (Ptum.PErr.invalidDefaultRole t2.full_name r)))
      ++ ([] ++
        (Ptum.validateRolesP mgr t1.full_name u1 ++
          (Ptum.validateRolesP mgr t2.full_name u2 ++
            (if u2.email ≠ u1.email then
              [Ptum.PErr.inconsistentUser "email" u1.username t1.full_name t2.full_name
                u1.email u2.email]
            else []) ++
            (if Ptum.getUserRoles u1 t1 ≠ Ptum.getUserRoles u2 t2 then
              [Ptum.PErr.inconsistentUser "roles" u1.username t1.full_name t2.full_name
                (CxAC.PVal.pset (Ptum.getUserRoles u1 t1))
                (CxAC.PVal.pset (Ptum.getUserRoles u2 t2))]
            else []) ++ []))) := by
    unfold Ptum.validateP
    rw [Ptum.mkPModel_two_user_map hu1 hu2 hun hne]
    simp only [List.foldl]
    simp only [Ptum.validateUserP, Ptum.vuLoop,
      Ptum.teamOf_mkPModel_fst hne, Ptum.teamOf_mkPModel_snd hne]
  refine ⟨?_, ?_⟩
  · rw [hval]
    by_cases hem : u2.email ≠ u1.email <;>
      by_cases hrs : Ptum.getUserRoles u1 t1 ≠ Ptum.getUserRoles u2 t2 <;>
      simp [hem, hrs, List.filter_append,
        Ptum.filter_isInconsistent_validateRolesP,
        Ptum.filter_isInconsistent_defaultErrs, Ptum.isInconsistent]
  · intro hem hrs
    rw [hval]
    simp [hem, hrs, List.filter_append,
      Ptum.filter_isInconsistent_validateRolesP,
      Ptum.filter_isInconsistent_defaultErrs, Ptum.isInconsistent]

/-- C7 witness: two concrete teams sharing one user record whose emails
agree but whose effective role sets differ yield exactly one
`InconsistentUser` record, for the role divergence. -/
theorem C7_inconsistent_user_amended_witness :
    (Ptum.validateP
        (Ptum.mkPModel
          [Ptum.exPTeam "T1" ["Admin"] (Ptum.exPUser "a@x" []),
           Ptum.exPTeam "T2" ["Reviewer"] (Ptum.exPUser "a@x" [])])
        CxAC.exRoleTable).filter Ptum.isInconsistent =
      [Ptum.PErr.inconsistentUser "roles" "u" "T1" "T2"
        (CxAC.PVal.pset ["Admin"]) (CxAC.PVal.pset ["Reviewer"])] :=
  (C7_inconsistent_user_amended
    (Ptum.exPTeam "T1" ["Admin"] (Ptum.exPUser "a@x" []))
    (Ptum.exPTeam "T2" ["Reviewer"] (Ptum.exPUser "a@x" []))
    (Ptum.exPUser "a@x" []) (Ptum.exPUser "a@x" []) CxAC.exRoleTable
    rfl rfl rfl (by decide)).2 rfl (by decide)

/-! Serialization roundtrip lemmas. -/

namespace CxAC

theorem toDictAux_keys (u : User) (dflts : Defaults) :
    ∀ (l : List (Attr × PType × Bool)) (d : List (Attr × PVal)),
    toDictAux u dflts l = Except.ok d →
    ∀ (a : Attr) (w : PVal), dLookup d a = some w → a ∈ l.map Prod.fst := by
  intro l
  induction l with
  | nil =>
    intro d h a w hw
    injection h with h
    rw [← h] at hw
    exact Option.noConfusion hw
  | cons e rest ih =>
    intro d h a w hw
    simp only [toDictAux] at h
    by_cases h1 : getAttr u e.1 ≠ PVal.pnone
    · rw [if_pos h1] at h
      by_cases h2 : getAttr u e.1 ≠ defaultFor dflts e.1 ∧
          (e.2.1 = PType.tbool ∨ truthy (getAttr u e.1) = true)
      · rw [if_pos h2] at h
        cases hrec : toDictAux u dflts rest with
        | error msg => rw [hrec] at h; exact Except.noConfusion h
        | ok d0 =>
          rw [hrec] at h
          simp only [Except.map] at h
          injection h with h
          rw [← h] at hw
          by_cases ha : e.1 = a
          · rw [List.map_cons]
            exact List.mem_cons.mpr (Or.inl ha.symm)
          · simp only [dLookup, if_neg ha] at hw
            rw [List.map_cons]
            exact List.mem_cons.mpr (Or.inr (ih d0 hrec a w hw))
      · rw [if_neg h2] at h
        rw [List.map_cons]
        exact List.mem_cons.mpr (Or.inr (ih d h a w hw))
    · rw [if_neg h1] at h
      by_cases h3 : defaultFor dflts e.1 = PVal.pnone ∧ e.2.2 = true
      · rw [if_pos h3] at h
        exact Except.noConfusion h
      · rw [if_neg h3] at h
        rw [List.map_cons]
        exact List.mem_cons.mpr (Or.inr (ih d h a w hw))

theorem toDictAux_lookup (u : User) (dflts : Defaults) :
    ∀ (l : List (Attr × PType × Bool)) (d : List (Attr × PVal)),
    (l.map Prod.fst).Nodup →
    toDictAux u dflts l = Except.ok d →
    ∀ e ∈ l, dLookup d e.1 =
      if emitCond (getAttr u e.1) (defaultFor dflts e.1) e.2.1 = true
      then some (getAttr u e.1) else none := by
  intro l
  induction l with
  | nil =>
    intro d _ _ e he
    exact absurd he (List.not_mem_nil e)
  | cons e0 rest ih =>
    intro d hnd h e he
    rw [List.map_cons, List.nodup_cons] at hnd
    obtain ⟨hk0, hkrest⟩ := hnd
    simp only [toDictAux] at h
    by_cases h1 : getAttr u e0.1 ≠ PVal.pnone
    · rw [if_pos h1] at h
      by_cases h2 : getAttr u e0.1 ≠ defaultFor dflts e0.1 ∧
          (e0.2.1 = PType.tbool ∨ truthy (getAttr u e0.1) = true)
      · rw [if_pos h2] at h
        cases hrec : toDictAux u dflts rest with
        | error msg => rw [hrec] at h; exact Except.noConfusion h
        | ok d0 =>
          rw [hrec] at h
          simp only [Except.map] at h
          injection h with h
          rcases List.mem_cons.mp he with rfl | herest
          · rw [← h]
            have hec : emitCond (getAttr u e.1) (defaultFor dflts e.1) e.2.1 = true := by
              rcases h2 with ⟨h2a, h2b⟩
              rcases h2b with hb | ht
              · simp [emitCond, h1, h2a, hb]
              · simp [emitCond, h1, h2a, ht]
            simp [dLookup, hec]
          · rw [← h]
            have hmem : e.1 ∈ rest.map Prod.fst := List.mem_map_of_mem Prod.fst herest
            have hne : ¬ (e0.1 = e.1) := fun hq => hk0 (hq ▸ hmem)
            simp only [dLookup, if_neg hne]
            exact ih d0 hkrest hrec e herest
      · rw [if_neg h2] at h
        rcases List.mem_cons.mp he with rfl | herest
        · have hef : emitCond (getAttr u e.1) (defaultFor dflts e.1) e.2.1 = false := by
            by_cases hvd : getAttr u e.1 = defaultFor dflts e.1
            · simp [emitCond, hvd]
            · have h3 : ¬ (e.2.1 = PType.tbool ∨ truthy (getAttr u e.1) = true) :=
                fun hc => h2 ⟨hvd, hc⟩
              push_neg at h3
              simp [emitCond, h3.1, h3.2]
          rw [hef, if_neg Bool.false_ne_true]
          cases ho : dLookup d e.1 with
          | none => rfl
          | some w => exact absurd (toDictAux_keys u dflts rest d h e.1 w ho) hk0
        · exact ih d hkrest h e herest
    · rw [if_neg h1] at h
      have hv0 : getAttr u e0.1 = PVal.pnone := not_not.mp h1
      by_cases h3 : defaultFor dflts e0.1 = PVal.pnone ∧ e0.2.2 = true
      · rw [if_pos h3] at h
        exact Except.noConfusion h
      · rw [if_neg h3] at h
        rcases List.mem_cons.mp he with rfl | herest
        · have hef : emitCond (getAttr u e.1) (defaultFor dflts e.1) e.2.1 = false := by
            simp [emitCond, hv0]
          rw [hef, if_neg Bool.false_ne_true]
          cases ho : dLookup d e.1 with
          | none => rfl
          | some w => exact absurd (toDictAux_keys u dflts rest d h e.1 w ho) hk0
        · exact ih d hkrest h e herest

theorem fromDict_ok_eq {d : List (Attr × PVal)} {dflts : Defaults} {u : User}
    (h : fromDict d dflts = Except.ok u) :
    u = mkUser
      ((dLookup (denormFill d dflts) Attr.username).getD PVal.pnone)
      ((dLookup (denormFill d dflts) Attr.authentication_provider_name).getD PVal.pnone)
      ((dLookup (denormFill d dflts) Attr.email).getD PVal.pnone)
      ((dLookup (denormFill d dflts) Attr.first_name).getD PVal.pnone)
      ((dLookup (denormFill d dflts) Attr.last_name).getD PVal.pnone)
      ((dLookup (denormFill d dflts) Attr.locale_id).getD PVal.pnone)
      ((dLookup (denormFill d dflts) Attr.roles).getD PVal.pnone)
      ((dLookup (denormFill d dflts) Attr.active).getD PVal.pnone)
      ((dLookup (denormFill d dflts) Attr.allowed_ip_list).getD PVal.pnone)
      ((dLookup (denormFill d dflts) Attr.cell_phone_number).getD PVal.pnone)
      ((dLookup (denormFill d dflts) Attr.country).getD PVal.pnone)
      ((dLookup (denormFill d dflts) Attr.expiration_date).getD PVal.pnone)
      ((dLookup (denormFill d dflts) Attr.job_title).getD PVal.pnone)
      ((dLookup (denormFill d dflts) Attr.other).getD PVal.pnone)
      ((dLookup (denormFill d dflts) Attr.phone_number).getD PVal.pnone)
      PVal.pnone := by
  cases h1 : dLookup (denormFill d dflts) Attr.username with
  | none =>
    simp only [fromDict, h1] at h
    exact Except.noConfusion h
  | some uv =>
    cases h2 : dLookup (denormFill d dflts) Attr.authentication_provider_name with
    | none =>
      simp only [fromDict, h1, h2] at h
      exact Except.noConfusion h
    | some av =>
      simp only [fromDict, h1, h2, Except.ok.injEq] at h
      exact h.symm

theorem fillStep_lookup_self {d : List (Attr × PVal)} {a : Attr} {p : Bool}
    {dflts : Defaults} :
    dLookup (fillStep d a p dflts) a =
      if (dLookup d a).isNone ∧ p then some (defaultFor dflts a) else dLookup d a := by
  unfold fillStep
  by_cases hc : (dLookup d a).isNone ∧ p = true
  · rw [if_pos hc, if_pos hc]
    exact dLookup_dInsert_self
  · rw [if_neg hc, if_neg hc]

theorem denormFill_lookup_other {d : List (Attr × PVal)} {dflts : Defaults} {a : Attr}
    (h1 : a ≠ Attr.active) (h2 : a ≠ Attr.authentication_provider_name)
    (h3 : a ≠ Attr.locale_id) (h4 : a ≠ Attr.roles) :
    dLookup (denormFill d dflts) a = dLookup d a := by
  simp only [denormFill]
  rw [fillStep_lookup_ne h4, fillStep_lookup_ne h3, fillStep_lookup_ne h2,
    fillStep_lookup_ne h1]

theorem denormFill_lookup_active {d : List (Attr × PVal)} {dflts : Defaults} :
    dLookup (denormFill d dflts) Attr.active =
      if (dLookup d Attr.active).isNone ∧ dflts.default_active.isSome
      then some (defaultFor dflts Attr.active) else dLookup d Attr.active := by
  simp only [denormFill]
  rw [fillStep_lookup_ne (by decide), fillStep_lookup_ne (by decide),
    fillStep_lookup_ne (by decide), fillStep_lookup_self]

theorem denormFill_lookup_apn {d : List (Attr × PVal)} {dflts : Defaults} :
    dLookup (denormFill d dflts) Attr.authentication_provider_name =
      if (dLookup d Attr.authentication_provider_name).isNone ∧
          dflts.default_authentication_provider_name.isSome
      then some (defaultFor dflts Attr.authentication_provider_name)
      else dLookup d Attr.authentication_provider_name := by
  simp only [denormFill]
  rw [fillStep_lookup_ne (by decide), fillStep_lookup_ne (by decide),
    fillStep_lookup_self, fillStep_lookup_ne (by decide)]

theorem denormFill_lookup_locale {d : List (Attr × PVal)} {dflts : Defaults} :
    dLookup (denormFill d dflts) Attr.locale_id =
      if (dLookup d Attr.locale_id).isNone ∧ dflts.default_locale_id.isSome
      then some (defaultFor dflts Attr.locale_id) else dLookup d Attr.locale_id := by
  simp only [denormFill]
  rw [fillStep_lookup_ne (by decide), fillStep_lookup_self,
    fillStep_lookup_ne (by decide), fillStep_lookup_ne (by decide)]

theorem denormFill_lookup_roles {d : List (Attr × PVal)} {dflts : Defaults} :
    dLookup (denormFill d dflts) Attr.roles =
      if (dLookup d Attr.roles).isNone
      then some (defaultFor dflts Attr.roles) else dLookup d Attr.roles := by
  simp only [denormFill]
  rw [fillStep_lookup_self, fillStep_lookup_ne (by decide),
    fillStep_lookup_ne (by decide), fillStep_lookup_ne (by decide)]
  simp

theorem storedAfter_false {v dv : PVal} {t : PType} :
    storedAfter v dv t false = if emitCond v dv t then some v else none := by
  simp [storedAfter]

theorem storedAfter_eq_fill {v dv : PVal} {t : PType} {p : Bool} {o : Option PVal}
    (ho : o = if emitCond v dv t then some v else none) :
    (if o.isNone ∧ p then some dv else o) = storedAfter v dv t p := by
  rw [ho]
  rfl

theorem storedAfter_true_fill {v dv : PVal} {t : PType} {o : Option PVal}
    (ho : o = if emitCond v dv t then some v else none) :
    (if o.isNone then some dv else o) = storedAfter v dv t true := by
  rw [ho]
  simp [storedAfter]

end CxAC

namespace CxAC

theorem emitCond_false_cases {v dv : PVal} {t : PType} (he : emitCond v dv t = false) :
    v = PVal.pnone ∨ v = dv ∨ truthy v = false := by
  by_cases h1 : v = PVal.pnone
  · exact Or.inl h1
  by_cases h2 : v = dv
  · exact Or.inr (Or.inl h2)
  have h3 := he
  simp [emitCond, h1, h2] at h3
  exact Or.inr (Or.inr h3.2)

theorem storedAfter_getD_of_false {v dv : PVal} {t : PType} {p : Bool}
    (he : emitCond v dv t = false) :
    (storedAfter v dv t p).getD PVal.pnone = if p then dv else PVal.pnone := by
  cases p <;> simp [storedAfter, he]

theorem resolveAttr_roundtrip_scalar (v dv : PVal) (t : PType) (p : Bool)
    (ht : decide (t = PType.tbool) = false) :
    resolveAttr ((storedAfter v dv t p).getD PVal.pnone) t dv = resolveAttr v t dv := by
  have ht' : ¬ t = PType.tbool := of_decide_eq_false ht
  by_cases he : emitCond v dv t = true
  · simp [storedAfter, he]
  · rw [Bool.not_eq_true] at he
    rw [storedAfter_getD_of_false he]
    have hdv : resolveAttr dv t dv = resolveAttr v t dv ∧
        resolveAttr PVal.pnone t dv = resolveAttr v t dv := by
      rcases emitCond_false_cases he with h | h | h
      · subst h
        constructor
        · simp [resolveAttr, ht', truthy]
        · rfl
      · subst h
        constructor
        · rfl
        · simp [resolveAttr, ht', truthy]
      · constructor <;>
          simp [resolveAttr, ht', h, show truthy PVal.pnone = false from rfl]
    cases p

    · simpa using hdv.2
    · simpa using hdv.1

theorem resolveAttr_roundtrip_bool (v dv : PVal) (p : Bool) :
    resolveAttr ((storedAfter v dv PType.tbool p).getD PVal.pnone) PType.tbool dv
      = resolveAttr v PType.tbool dv := by
  by_cases he : emitCond v dv PType.tbool = true
  · simp [storedAfter, he]
  · rw [Bool.not_eq_true] at he
    rw [storedAfter_getD_of_false he]
    have hcases : v = PVal.pnone ∨ v = dv := by
      by_cases h1 : v = PVal.pnone
      · exact Or.inl h1
      · right
        by_contra h2
        simp [emitCond, h1, h2] at he
    rcases hcases with h | h
    · subst h
      cases p <;> simp [resolveAttr]
    · subst h
      cases p <;> simp [resolveAttr]

theorem resolveAttr_roundtrip_container (v dv : PVal) (p : Bool)
    (hv : fitsType v PType.tlist = true) (hdv : fitsType dv PType.tlist = true) :
    resolveAttr
      (if truthy ((storedAfter v dv PType.tlist p).getD PVal.pnone) = true
        then PVal.pset (canonSet (asList ((storedAfter v dv PType.tlist p).getD PVal.pnone)))
        else PVal.pset [])
      PType.tlist dv
    = resolveAttr v PType.tlist dv := by
  by_cases he : emitCond v dv PType.tlist = true
  · have htr : truthy v = true := by
      simp only [emitCond, Bool.and_eq_true, Bool.or_eq_true] at he
      rcases he.2 with hb | ht
      · exact absurd (of_decide_eq_true hb) (by decide)
      · exact ht
    cases v with
    | pset l =>
      have hcan : canonSet l = l := of_decide_eq_true (by simpa [fitsType] using hv)
      simp [storedAfter, he, asList, hcan, htr]
    | pnone => exact absurd htr (by simp [truthy])
    | pbool b => simp [fitsType] at hv
    | pstr s => simp [fitsType] at hv
    | pint n => simp [fitsType] at hv
  · rw [Bool.not_eq_true] at he
    rw [storedAfter_getD_of_false he]
    have hres : resolveAttr v PType.tlist dv = dv := by
      rcases emitCond_false_cases he with h | h | h
      · subst h
        simp [resolveAttr, truthy]
      · subst h
        simp [resolveAttr]
      · simp [resolveAttr, h]
    rw [hres]
    cases p with
    | false =>
      simp [truthy, resolveAttr, canonSet, sortAsc]
    | true =>
      cases dv with
      | pnone => simp [truthy, resolveAttr, canonSet, sortAsc]
      | pset drs =>
        have hcan : canonSet drs = drs := of_decide_eq_true (by simpa [fitsType] using hdv)
        by_cases hd : drs = []
        · subst hd
          simp [truthy, resolveAttr, canonSet, sortAsc]
        · simp [truthy, resolveAttr, asList, hcan, hd]
      | pbool b => simp [fitsType] at hdv
      | pstr s => simp [fitsType] at hdv
      | pint n => simp [fitsType] at hdv

end CxAC

/-! Claim C8. -/

/-- C8: serializing a well-typed user with normalization against team-level
defaults (`to_dict`, omitting attributes equal to or supplied by the
defaults) and then deserializing with denormalization (`user_from_dict`,
filling absent hoistable attributes from the same defaults) preserves every
effective (resolved) attribute of the user, even though the raw stored
representation may change. -/
theorem C8_roundtrip_effective :
    ∀ (u : CxAC.User) (dflts : CxAC.Defaults) (d : List (CxAC.Attr × CxAC.PVal))
      (u2 : CxAC.User),
    CxAC.wellTypedUser u = true →
    CxAC.canonSet dflts.default_roles = dflts.default_roles →
    CxAC.toDict u dflts = Except.ok d →
    CxAC.fromDict d dflts = Except.ok u2 →
    ∀ e ∈ CxAC.userAttrs, CxAC.effective u2 dflts e.1 = CxAC.effective u dflts e.1 := by
  intro u dflts d u2 hwt hcanon htd hfd e he
  have hnd : (CxAC.userAttrs.map Prod.fst).Nodup := by decide
  have hA := CxAC.toDictAux_lookup u dflts CxAC.userAttrs d hnd htd
  have hwa : ∀ x ∈ CxAC.userAttrs, CxAC.fitsType (CxAC.getAttr u x.1) x.2.1 = true :=
    List.all_eq_true.mp hwt
  have hu2 := CxAC.fromDict_ok_eq hfd
  subst hu2
  simp only [CxAC.userAttrs, List.mem_cons, List.not_mem_nil, or_false] at he
  rcases he with rfl | rfl | rfl | rfl | rfl | rfl | rfl | rfl | rfl | rfl | rfl | rfl | rfl | rfl | rfl
  · -- active
    have hd1 : CxAC.dLookup d CxAC.Attr.active =
        if CxAC.emitCond (CxAC.getAttr u CxAC.Attr.active) (CxAC.defaultFor dflts CxAC.Attr.active)
            CxAC.PType.tbool = true
        then some (CxAC.getAttr u CxAC.Attr.active) else none :=
      hA (CxAC.Attr.active, CxAC.PType.tbool, true) (by decide)
    have hlk : CxAC.dLookup (CxAC.denormFill d dflts) CxAC.Attr.active =
        CxAC.storedAfter (CxAC.getAttr u CxAC.Attr.active) (CxAC.defaultFor dflts CxAC.Attr.active)
          CxAC.PType.tbool dflts.default_active.isSome := by
      rw [CxAC.denormFill_lookup_active]
      exact CxAC.storedAfter_eq_fill hd1
    show CxAC.resolveAttr
        ((CxAC.dLookup (CxAC.denormFill d dflts) CxAC.Attr.active).getD CxAC.PVal.pnone)
        CxAC.PType.tbool (CxAC.defaultFor dflts CxAC.Attr.active) =
      CxAC.effective u dflts CxAC.Attr.active
    rw [hlk]
    exact CxAC.resolveAttr_roundtrip_bool _ _ _
  · -- allowed_ip_list
    have hd1 : CxAC.dLookup d CxAC.Attr.allowed_ip_list =
        if CxAC.emitCond (CxAC.getAttr u CxAC.Attr.allowed_ip_list) (CxAC.defaultFor dflts CxAC.Attr.allowed_ip_list)
            CxAC.PType.tlist = true
        then some (CxAC.getAttr u CxAC.Attr.allowed_ip_list) else none :=
      hA (CxAC.Attr.allowed_ip_list, CxAC.PType.tlist, false) (by decide)
    have hlk : CxAC.dLookup (CxAC.denormFill d dflts) CxAC.Attr.allowed_ip_list =
        CxAC.storedAfter (CxAC.getAttr u CxAC.Attr.allowed_ip_list) (CxAC.defaultFor dflts CxAC.Attr.allowed_ip_list)
          CxAC.PType.tlist false := by
      rw [CxAC.denormFill_lookup_other (by decide) (by decide) (by decide) (by decide),
        hd1, CxAC.storedAfter_false]
    have hv : CxAC.fitsType (CxAC.getAttr u CxAC.Attr.allowed_ip_list) CxAC.PType.tlist = true :=
      hwa (CxAC.Attr.allowed_ip_list, CxAC.PType.tlist, false) (by decide)
    have hdv : CxAC.fitsType (CxAC.defaultFor dflts CxAC.Attr.allowed_ip_list) CxAC.PType.tlist = true := by
      rfl
    show CxAC.resolveAttr
        (if CxAC.truthy ((CxAC.dLookup (CxAC.denormFill d dflts) CxAC.Attr.allowed_ip_list).getD
            CxAC.PVal.pnone) = true
          then CxAC.PVal.pset (CxAC.canonSet (CxAC.asList
            ((CxAC.dLookup (CxAC.denormFill d dflts) CxAC.Attr.allowed_ip_list).getD CxAC.PVal.pnone)))
          else CxAC.PVal.pset [])
        CxAC.PType.tlist (CxAC.defaultFor dflts CxAC.Attr.allowed_ip_list) =
      CxAC.effective u dflts CxAC.Attr.allowed_ip_list
    rw [hlk]
    exact CxAC.resolveAttr_roundtrip_container _ _ _ hv hdv
  · -- authentication_provider_name
    have hd1 : CxAC.dLookup d CxAC.Attr.authentication_provider_name =
        if CxAC.emitCond (CxAC.getAttr u CxAC.Attr.authentication_provider_name) (CxAC.defaultFor dflts CxAC.Attr.authentication_provider_name)
            CxAC.PType.tstr = true
        then some (CxAC.getAttr u CxAC.Attr.authentication_provider_name) else none :=
      hA (CxAC.Attr.authentication_provider_name, CxAC.PType.tstr, true) (by decide)
    have hlk : CxAC.dLookup (CxAC.denormFill d dflts) CxAC.Attr.authentication_provider_name =
        CxAC.storedAfter (CxAC.getAttr u CxAC.Attr.authentication_provider_name) (CxAC.defaultFor dflts CxAC.Attr.authentication_provider_name)
          CxAC.PType.tstr dflts.default_authentication_provider_name.isSome := by
      rw [CxAC.denormFill_lookup_apn]
      exact CxAC.storedAfter_eq_fill hd1
    show CxAC.resolveAttr
        ((CxAC.dLookup (CxAC.denormFill d dflts) CxAC.Attr.authentication_provider_name).getD CxAC.PVal.pnone)
        CxAC.PType.tstr (CxAC.defaultFor dflts CxAC.Attr.authentication_provider_name) =
      CxAC.effective u dflts CxAC.Attr.authentication_provider_name
    rw [hlk]
    exact CxAC.resolveAttr_roundtrip_scalar _ _ _ dflts.default_authentication_provider_name.isSome (by decide)
  · -- cell_phone_number
    have hd1 : CxAC.dLookup d CxAC.Attr.cell_phone_number =
        if CxAC.emitCond (CxAC.getAttr u CxAC.Attr.cell_phone_number) (CxAC.defaultFor dflts CxAC.Attr.cell_phone_number)
            CxAC.PType.tstr = true
        then some (CxAC.getAttr u CxAC.Attr.cell_phone_number) else none :=
      hA (CxAC.Attr.cell_phone_number, CxAC.PType.tstr, false) (by decide)
    have hlk : CxAC.dLookup (CxAC.denormFill d dflts) CxAC.Attr.cell_phone_number =
        CxAC.storedAfter (CxAC.getAttr u CxAC.Attr.cell_phone_number) (CxAC.defaultFor dflts CxAC.Attr.cell_phone_number)
          CxAC.PType.tstr false := by
      rw [CxAC.denormFill_lookup_other (by decide) (by decide) (by decide) (by decide),
        hd1, CxAC.storedAfter_false]
    show CxAC.resolveAttr
        ((CxAC.dLookup (CxAC.denormFill d dflts) CxAC.Attr.cell_phone_number).getD CxAC.PVal.pnone)
        CxAC.PType.tstr (CxAC.defaultFor dflts CxAC.Attr.cell_phone_number) =
      CxAC.effective u dflts CxAC.Attr.cell_phone_number
    rw [hlk]
    exact CxAC.resolveAttr_roundtrip_scalar _ _ _ false (by decide)
  · -- country
    have hd1 : CxAC.dLookup d CxAC.Attr.country =
        if CxAC.emitCond (CxAC.getAttr u CxAC.Attr.country) (CxAC.defaultFor dflts CxAC.Attr.country)
            CxAC.PType.tstr = true
        then some (CxAC.getAttr u CxAC.Attr.country) else none :=
      hA (CxAC.Attr.country, CxAC.PType.tstr, false) (by decide)
    have hlk : CxAC.dLookup (CxAC.denormFill d dflts) CxAC.Attr.country =
        CxAC.storedAfter (CxAC.getAttr u CxAC.Attr.country) (CxAC.defaultFor dflts CxAC.Attr.country)
          CxAC.PType.tstr false := by
      rw [CxAC.denormFill_lookup_other (by decide) (by decide) (by decide) (by decide),
        hd1, CxAC.storedAfter_false]
    show CxAC.resolveAttr
        ((CxAC.dLookup (CxAC.denormFill d dflts) CxAC.Attr.country).getD CxAC.PVal.pnone)
        CxAC.PType.tstr (CxAC.defaultFor dflts CxAC.Attr.country) =
      CxAC.effective u dflts CxAC.Attr.country
    rw [hlk]
    exact CxAC.resolveAttr_roundtrip_scalar _ _ _ false (by decide)
  · -- email
    have hd1 : CxAC.dLookup d CxAC.Attr.email =
        if CxAC.emitCond (CxAC.getAttr u CxAC.Attr.email) (CxAC.defaultFor dflts CxAC.Attr.email)
            CxAC.PType.tstr = true
        then some (CxAC.getAttr u CxAC.Attr.email) else none :=
      hA (CxAC.Attr.email, CxAC.PType.tstr, true) (by decide)
    have hlk : CxAC.dLookup (CxAC.denormFill d dflts) CxAC.Attr.email =
        CxAC.storedAfter (CxAC.getAttr u CxAC.Attr.email) (CxAC.defaultFor dflts CxAC.Attr.email)
          CxAC.PType.tstr false := by
      rw [CxAC.denormFill_lookup_other (by decide) (by decide) (by decide) (by decide),
        hd1, CxAC.storedAfter_false]
    show CxAC.resolveAttr
        ((CxAC.dLookup (CxAC.denormFill d dflts) CxAC.Attr.email).getD CxAC.PVal.pnone)
        CxAC.PType.tstr (CxAC.defaultFor dflts CxAC.Attr.email) =
      CxAC.effective u dflts CxAC.Attr.email
    rw [hlk]
    exact CxAC.resolveAttr_roundtrip_scalar _ _ _ false (by decide)
  · -- expiration_date
    have hd1 : CxAC.dLookup d CxAC.Attr.expiration_date =
        if CxAC.emitCond (CxAC.getAttr u CxAC.Attr.expiration_date) (CxAC.defaultFor dflts CxAC.Attr.expiration_date)
            CxAC.PType.tstr = true
        then some (CxAC.getAttr u CxAC.Attr.expiration_date) else none :=
      hA (CxAC.Attr.expiration_date, CxAC.PType.tstr, false) (by decide)
    have hlk : CxAC.dLookup (CxAC.denormFill d dflts) CxAC.Attr.expiration_date =
        CxAC.storedAfter (CxAC.getAttr u CxAC.Attr.expiration_date) (CxAC.defaultFor dflts CxAC.Attr.expiration_date)
          CxAC.PType.tstr false := by
      rw [CxAC.denormFill_lookup_other (by decide) (by decide) (by decide) (by decide),
        hd1, CxAC.storedAfter_false]
    show CxAC.resolveAttr
        ((CxAC.dLookup (CxAC.denormFill d dflts) CxAC.Attr.expiration_date).getD CxAC.PVal.pnone)
        CxAC.PType.tstr (CxAC.defaultFor dflts CxAC.Attr.expiration_date) =
      CxAC.effective u dflts CxAC.Attr.expiration_date
    rw [hlk]
    exact CxAC.resolveAttr_roundtrip_scalar _ _ _ false (by decide)
  · -- first_name
    have hd1 : CxAC.dLookup d CxAC.Attr.first_name =
        if CxAC.emitCond (CxAC.getAttr u CxAC.Attr.first_name) (CxAC.defaultFor dflts CxAC.Attr.first_name)
            CxAC.PType.tstr = true
        then some (CxAC.getAttr u CxAC.Attr.first_name) else none :=
      hA (CxAC.Attr.first_name, CxAC.PType.tstr, true) (by decide)
    have hlk : CxAC.dLookup (CxAC.denormFill d dflts) CxAC.Attr.first_name =
        CxAC.storedAfter (CxAC.getAttr u CxAC.Attr.first_name) (CxAC.defaultFor dflts CxAC.Attr.first_name)
          CxAC.PType.tstr false := by
      rw [CxAC.denormFill_lookup_other (by decide) (by decide) (by decide) (by decide),
        hd1, CxAC.storedAfter_false]
    show CxAC.resolveAttr
        ((CxAC.dLookup (CxAC.denormFill d dflts) CxAC.Attr.first_name).getD CxAC.PVal.pnone)
        CxAC.PType.tstr (CxAC.defaultFor dflts CxAC.Attr.first_name) =
      CxAC.effective u dflts CxAC.Attr.first_name
    rw [hlk]
    exact CxAC.resolveAttr_roundtrip_scalar _ _ _ false (by decide)
  · -- job_title
    have hd1 : CxAC.dLookup d CxAC.Attr.job_title =
        if CxAC.emitCond (CxAC.getAttr u CxAC.Attr.job_title) (CxAC.defaultFor dflts CxAC.Attr.job_title)
            CxAC.PType.tstr = true
        then some (CxAC.getAttr u CxAC.Attr.job_title) else none :=
      hA (CxAC.Attr.job_title, CxAC.PType.tstr, false) (by decide)
    have hlk : CxAC.dLookup (CxAC.denormFill d dflts) CxAC.Attr.job_title =
        CxAC.storedAfter (CxAC.getAttr u CxAC.Attr.job_title) (CxAC.defaultFor dflts CxAC.Attr.job_title)
          CxAC.PType.tstr false := by
      rw [CxAC.denormFill_lookup_other (by decide) (by decide) (by decide) (by decide),
        hd1, CxAC.storedAfter_false]
    show CxAC.resolveAttr
        ((CxAC.dLookup (CxAC.denormFill d dflts) CxAC.Attr.job_title).getD CxAC.PVal.pnone)
        CxAC.PType.tstr (CxAC.defaultFor dflts CxAC.Attr.job_title) =
      CxAC.effective u dflts CxAC.Attr.job_title
    rw [hlk]
    exact CxAC.resolveAttr_roundtrip_scalar _ _ _ false (by decide)
  · -- last_name
    have hd1 : CxAC.dLookup d CxAC.Attr.last_name =
        if CxAC.emitCond (CxAC.getAttr u CxAC.Attr.last_name) (CxAC.defaultFor dflts CxAC.Attr.last_name)
            CxAC.PType.tstr = true
        then some (CxAC.getAttr u CxAC.Attr.last_name) else none :=
      hA (CxAC.Attr.last_name, CxAC.PType.tstr, true) (by decide)
    have hlk : CxAC.dLookup (CxAC.denormFill d dflts) CxAC.Attr.last_name =
        CxAC.storedAfter (CxAC.getAttr u CxAC.Attr.last_name) (CxAC.defaultFor dflts CxAC.Attr.last_name)
          CxAC.PType.tstr false := by
      rw [CxAC.denormFill_lookup_other (by decide) (by decide) (by decide) (by decide),
        hd1, CxAC.storedAfter_false]
    show CxAC.resolveAttr
        ((CxAC.dLookup (CxAC.denormFill d dflts) CxAC.Attr.last_name).getD CxAC.PVal.pnone)
        CxAC.PType.tstr (CxAC.defaultFor dflts CxAC.Attr.last_name) =
      CxAC.effective u dflts CxAC.Attr.last_name
    rw [hlk]
    exact CxAC.resolveAttr_roundtrip_scalar _ _ _ false (by decide)
  · -- locale_id
    have hd1 : CxAC.dLookup d CxAC.Attr.locale_id =
        if CxAC.emitCond (CxAC.getAttr u CxAC.Attr.locale_id) (CxAC.defaultFor dflts CxAC.Attr.locale_id)
            CxAC.PType.tint = true
        then some (CxAC.getAttr u CxAC.Attr.locale_id) else none :=
      hA (CxAC.Attr.locale_id, CxAC.PType.tint, true) (by decide)
    have hlk : CxAC.dLookup (CxAC.denormFill d dflts) CxAC.Attr.locale_id =
        CxAC.storedAfter (CxAC.getAttr u CxAC.Attr.locale_id) (CxAC.defaultFor dflts CxAC.Attr.locale_id)
          CxAC.PType.tint dflts.default_locale_id.isSome := by
      rw [CxAC.denormFill_lookup_locale]
      exact CxAC.storedAfter_eq_fill hd1
    show CxAC.resolveAttr
        ((CxAC.dLookup (CxAC.denormFill d dflts) CxAC.Attr.locale_id).getD CxAC.PVal.pnone)
        CxAC.PType.tint (CxAC.defaultFor dflts CxAC.Attr.locale_id) =
      CxAC.effective u dflts CxAC.Attr.locale_id
    rw [hlk]
    exact CxAC.resolveAttr_roundtrip_scalar _ _ _ dflts.default_locale_id.isSome (by decide)
  · -- other
    have hd1 : CxAC.dLookup d CxAC.Attr.other =
        if CxAC.emitCond (CxAC.getAttr u CxAC.Attr.other) (CxAC.defaultFor dflts CxAC.Attr.other)
            CxAC.PType.tstr = true
        then some (CxAC.getAttr u CxAC.Attr.other) else none :=
      hA (CxAC.Attr.other, CxAC.PType.tstr, false) (by decide)
    have hlk : CxAC.dLookup (CxAC.denormFill d dflts) CxAC.Attr.other =
        CxAC.storedAfter (CxAC.getAttr u CxAC.Attr.other) (CxAC.defaultFor dflts CxAC.Attr.other)
          CxAC.PType.tstr false := by
      rw [CxAC.denormFill_lookup_other (by decide) (by decide) (by decide) (by decide),
        hd1, CxAC.storedAfter_false]
    show CxAC.resolveAttr
        ((CxAC.dLookup (CxAC.denormFill d dflts) CxAC.Attr.other).getD CxAC.PVal.pnone)
        CxAC.PType.tstr (CxAC.defaultFor dflts CxAC.Attr.other) =
      CxAC.effective u dflts CxAC.Attr.other
    rw [hlk]
    exact CxAC.resolveAttr_roundtrip_scalar _ _ _ false (by decide)
  · -- phone_number
    have hd1 : CxAC.dLookup d CxAC.Attr.phone_number =
        if CxAC.emitCond (CxAC.getAttr u CxAC.Attr.phone_number) (CxAC.defaultFor dflts CxAC.Attr.phone_number)
            CxAC.PType.tstr = true
        then some (CxAC.getAttr u CxAC.Attr.phone_number) else none :=
      hA (CxAC.Attr.phone_number, CxAC.PType.tstr, false) (by decide)
    have hlk : CxAC.dLookup (CxAC.denormFill d dflts) CxAC.Attr.phone_number =
        CxAC.storedAfter (CxAC.getAttr u CxAC.Attr.phone_number) (CxAC.defaultFor dflts CxAC.Attr.phone_number)
          CxAC.PType.tstr false := by
      rw [CxAC.denormFill_lookup_other (by decide) (by decide) (by decide) (by decide),
        hd1, CxAC.storedAfter_false]
    show CxAC.resolveAttr
        ((CxAC.dLookup (CxAC.denormFill d dflts) CxAC.Attr.phone_number).getD CxAC.PVal.pnone)
        CxAC.PType.tstr (CxAC.defaultFor dflts CxAC.Attr.phone_number) =
      CxAC.effective u dflts CxAC.Attr.phone_number
    rw [hlk]
    exact CxAC.resolveAttr_roundtrip_scalar _ _ _ false (by decide)
  · -- roles
    have hd1 : CxAC.dLookup d CxAC.Attr.roles =
        if CxAC.emitCond (CxAC.getAttr u CxAC.Attr.roles) (CxAC.defaultFor dflts CxAC.Attr.roles)
            CxAC.PType.tlist = true
        then some (CxAC.getAttr u CxAC.Attr.roles) else none :=
      hA (CxAC.Attr.roles, CxAC.PType.tlist, false) (by decide)
    have hlk : CxAC.dLookup (CxAC.denormFill d dflts) CxAC.Attr.roles =
        CxAC.storedAfter (CxAC.getAttr u CxAC.Attr.roles) (CxAC.defaultFor dflts CxAC.Attr.roles)
          CxAC.PType.tlist true := by
      rw [CxAC.denormFill_lookup_roles]
      exact CxAC.storedAfter_true_fill hd1
    have hv : CxAC.fitsType (CxAC.getAttr u CxAC.Attr.roles) CxAC.PType.tlist = true :=
      hwa (CxAC.Attr.roles, CxAC.PType.tlist, false) (by decide)
    have hdv : CxAC.fitsType (CxAC.defaultFor dflts CxAC.Attr.roles) CxAC.PType.tlist = true := by
      simp [CxAC.fitsType, CxAC.defaultFor, hcanon]
    show CxAC.resolveAttr
        (if CxAC.truthy ((CxAC.dLookup (CxAC.denormFill d dflts) CxAC.Attr.roles).getD
            CxAC.PVal.pnone) = true
          then CxAC.PVal.pset (CxAC.canonSet (CxAC.asList
            ((CxAC.dLookup (CxAC.denormFill d dflts) CxAC.Attr.roles).getD CxAC.PVal.pnone)))
          else CxAC.PVal.pset [])
        CxAC.PType.tlist (CxAC.defaultFor dflts CxAC.Attr.roles) =
      CxAC.effective u dflts CxAC.Attr.roles
    rw [hlk]
    exact CxAC.resolveAttr_roundtrip_container _ _ _ hv hdv
  · -- username
    have hd1 : CxAC.dLookup d CxAC.Attr.username =
        if CxAC.emitCond (CxAC.getAttr u CxAC.Attr.username) (CxAC.defaultFor dflts CxAC.Attr.username)
            CxAC.PType.tstr = true
        then some (CxAC.getAttr u CxAC.Attr.username) else none :=
      hA (CxAC.Attr.username, CxAC.PType.tstr, true) (by decide)
    have hlk : CxAC.dLookup (CxAC.denormFill d dflts) CxAC.Attr.username =
        CxAC.storedAfter (CxAC.getAttr u CxAC.Attr.username) (CxAC.defaultFor dflts CxAC.Attr.username)
          CxAC.PType.tstr false := by
      rw [CxAC.denormFill_lookup_other (by decide) (by decide) (by decide) (by decide),
        hd1, CxAC.storedAfter_false]
    show CxAC.resolveAttr
        ((CxAC.dLookup (CxAC.denormFill d dflts) CxAC.Attr.username).getD CxAC.PVal.pnone)
        CxAC.PType.tstr (CxAC.defaultFor dflts CxAC.Attr.username) =
      CxAC.effective u dflts CxAC.Attr.username
    rw [hlk]
    exact CxAC.resolveAttr_roundtrip_scalar _ _ _ false (by decide)

/-- C8 witness: the roundtrip behaviour at a concrete user whose hoistable
attributes are `None`: normalization omits them, denormalization restores
the defaults, the raw representation changes, and every effective attribute
is preserved. -/
theorem C8_roundtrip_effective_witness :
    (CxAC.wellTypedUser CxAC.exRtUser = true ∧
     CxAC.canonSet CxAC.exRtDefaults.default_roles = CxAC.exRtDefaults.default_roles ∧
     CxAC.toDict CxAC.exRtUser CxAC.exRtDefaults = Except.ok CxAC.exRtDict ∧
     CxAC.fromDict CxAC.exRtDict CxAC.exRtDefaults = Except.ok CxAC.exRtUser2 ∧
     CxAC.exRtUser2 ≠ CxAC.exRtUser) ∧
    ∀ e ∈ CxAC.userAttrs,
      CxAC.effective CxAC.exRtUser2 CxAC.exRtDefaults e.1 =
        CxAC.effective CxAC.exRtUser CxAC.exRtDefaults e.1 :=
  ⟨⟨by decide, by decide, by decide, by decide, by decide⟩,
   C8_roundtrip_effective CxAC.exRtUser CxAC.exRtDefaults CxAC.exRtDict CxAC.exRtUser2
     (by decide) (by decide) (by decide) (by decide)⟩
